import Mathlib

/-!
Verification of the roll-bot repository (dice-roll crate and bot-utils storage
actor) against its natural-language specification.

The Rust sources are shallowly embedded:
* machine integers become `Nat`/`Int` with explicit range checks where the code
  uses checked arithmetic, and an explicit two's-complement wrap where release
  Rust wraps;
* the `rand` sampler (`Uniform::new_inclusive(lo, hi)`) becomes a deterministic
  function of an explicit stream of raw draws carried in an `EvalState`;
* the stateful `FnMut() -> bool` timeout closure becomes a boolean stream with
  a call counter carried in the same state;
* strings become `List Char`; the nom combinators of `parser.rs` are rebuilt
  one-for-one over `List Char`.
-/

namespace RollBot

/-! ## i64 model (two's complement 64-bit, as used by the Rust sources) -/

def i64Min : Int := -(2 ^ 63)

def i64Max : Int := 2 ^ 63 - 1

def u32Max : Nat := 4294967295

/-- `x` is representable in `i64`. -/
def inI64 (x : Int) : Prop := i64Min ≤ x ∧ x ≤ i64Max

instance (x : Int) : Decidable (inI64 x) := by unfold inI64; infer_instance

/-- Two's-complement wrap-around to `i64`, the behaviour of release-mode `+`
on `i64` in Rust. -/
def wrap64 (x : Int) : Int := (x + 2 ^ 63) % 2 ^ 64 - 2 ^ 63

/-- Model of Rust `i64::checked_add`. -/
def checkedAdd (a b : Int) : Option Int :=
  if inI64 (a + b) then some (a + b) else none

/-- Model of Rust `i64::checked_sub`. -/
def checkedSub (a b : Int) : Option Int :=
  if inI64 (a - b) then some (a - b) else none

/-- Model of Rust `i64::checked_mul`. -/
def checkedMul (a b : Int) : Option Int :=
  if inI64 (a * b) then some (a * b) else none

/-- Model of Rust `i64::checked_div`: `None` iff the divisor is `0` or the
division overflows (`i64::MIN / -1`); otherwise division truncating toward
zero (`Int.tdiv`), as Rust `/` does. -/
def checkedDiv (a b : Int) : Option Int :=
  if b = 0 ∨ (a = i64Min ∧ b = -1) then none else some (Int.tdiv a b)

/-! ## Abstract syntax (src/dice-roll/src/dice_types.rs)

`u32` fields are modelled as `Nat`; no `u32` arithmetic occurs in any of the
embedded code paths, so no wrap is needed. `i64` constants are modelled as
`Int`; the parser only ever produces in-range values. -/

inductive DiceType where
  | Number (faces : Nat)
  | Fudge
  | Multiply (faces : Nat)
  deriving DecidableEq, Repr

structure Dice where
  throws : Nat
  dice : DiceType
  deriving DecidableEq, Repr

inductive DFilter where
  | Bigger
  | BiggerEq
  | Smaller
  | SmallerEq
  | NotEq
  deriving DecidableEq, Repr

inductive FilteredDice where
  | Simple (d : Dice)
  | Filtered (d : Dice) (f : DFilter) (target : Nat)
  deriving DecidableEq, Repr

inductive Selector where
  | Higher
  | Lower
  deriving DecidableEq, Repr

inductive SelectedDice where
  | Unchanged (d : FilteredDice)
  | Selected (d : FilteredDice) (s : Selector) (maxSize : Nat)
  deriving DecidableEq, Repr

inductive Operation where
  | Mul
  | Div
  | Add
  | Sub
  deriving DecidableEq, Repr

inductive Term where
  | Constant (i : Int)
  | DiceThrow (d : SelectedDice)
  | Calculation (l : Term) (op : Operation) (r : Term)
  | SubTerm (t : Term)
  deriving DecidableEq, Repr

inductive Expression where
  | Simple (t : Term)
  | List (count : Nat) (t : Term)
  deriving DecidableEq, Repr

inductive LabeledExpression where
  | Unlabeled (e : Expression)
  | Labeled (e : Expression) (label : String)
  deriving DecidableEq, Repr

/-! ## Evaluation state

`rng` is the raw stream of draws behind `rand`; `sample lo hi` maps a raw draw
into `[lo, hi]`, which is the defining guarantee of
`Uniform::new_inclusive(lo, hi)` (that constructor requires `lo ≤ hi` and the
embedded code only ever instantiates it that way). `tf`/`tpos` model the
stateful `FnMut() -> bool` timeout closure: each call reads the stream at the
current position and advances it. -/

structure EvalState where
  rng : Nat → Nat
  rpos : Nat
  tf : Nat → Bool
  tpos : Nat

/-- One call of the `timeout_f` closure. -/
def callTimeout (s : EvalState) : Bool × EvalState :=
  (s.tf s.tpos, { s with tpos := s.tpos + 1 })

/-- One sample from `Uniform::new_inclusive(lo, hi)`. -/
def sample (lo hi : Int) (s : EvalState) : Int × EvalState :=
  (lo + Int.ofNat (s.rng s.rpos % (hi - lo + 1).toNat), { s with rpos := s.rpos + 1 })

inductive EvaluationErrors where
  | DivideByZero
  | Timeout
  | Overflow
  deriving DecidableEq, Repr

/-! ## Dice evaluation (src/dice-roll/src/dice_roll.rs, `Dice::evaluate`) -/

/-- The body of one iteration of the rolling loop: the single sample for
`Number`/`Fudge`, and the two samples with `checked_mul` for `Multiply`
(receiver sampled before argument, as in Rust). -/
def rollOne : DiceType → EvalState → Except EvaluationErrors (Int × EvalState)
  | .Number faces, s => .ok (sample 1 (Int.ofNat faces) s)
  | .Fudge, s => .ok (sample (-1) 1 s)
  | .Multiply base, s =>
    let r1 := sample 1 (Int.ofNat base) s
    let r2 := sample 1 (Int.ofNat base) r1.2
    match checkedMul r1.1 r2.1 with
    | some v => .ok (v, r2.2)
    | none => .error .Overflow

/-- The `for _ in 0..self.throws` loop of `Dice::evaluate`: `roll_counter` is a
wrapping `u8`, and `timeout_f` is polled exactly when it wraps to `0` (the
`&&` in the source short-circuits, so the closure is not called otherwise). -/
def rollLoop (dice : DiceType) : Nat → Nat → EvalState →
    Except EvaluationErrors (List Int × EvalState)
  | 0, _, s => .ok ([], s)
  | n + 1, counter, s =>
    let c := (counter + 1) % 256
    if c = 0 then
      if (callTimeout s).1 then .error .Timeout
      else
        match rollOne dice (callTimeout s).2 with
        | .error e => .error e
        | .ok r => (rollLoop dice n c r.2).map (fun q => (r.1 :: q.1, q.2))
    else
      match rollOne dice s with
      | .error e => .error e
      | .ok r => (rollLoop dice n c r.2).map (fun q => (r.1 :: q.1, q.2))

/-- `Dice::evaluate`: timeout check on entry, then the rolling loop; the result
pairs the roll list with an identical copy. -/
def Dice.evaluate (d : Dice) (s : EvalState) :
    Except EvaluationErrors ((List Int × List Int) × EvalState) :=
  if (callTimeout s).1 then .error .Timeout
  else (rollLoop d.dice d.throws 0 (callTimeout s).2).map (fun r => ((r.1, r.1), r.2))

/-- The per-filter predicate from `FilteredDice::evaluate`. Note that both
`Bigger` and `BiggerEq` are the strict comparison in the source. -/
def filterFn : DFilter → Nat → Int → Bool
  | .Bigger, target, i => i > Int.ofNat target
  | .BiggerEq, target, i => i > Int.ofNat target
  | .Smaller, target, i => i < Int.ofNat target
  | .SmallerEq, target, i => i ≤ Int.ofNat target
  | .NotEq, target, i => i ≠ Int.ofNat target

/-- `FilteredDice::evaluate`. -/
def FilteredDice.evaluate : FilteredDice → EvalState →
    Except EvaluationErrors ((List Int × List Int) × EvalState)
  | .Simple d, s => d.evaluate s
  | .Filtered d f target, s =>
    (d.evaluate s).map (fun r => ((r.1.1.filter (filterFn f target), r.1.2), r.2))

/-- Insertion of one element into an ascending list; `sortInts` below is
ascending sorting of a list of `i64`, the observable behaviour of
`sort_unstable` on the roll vector (values are compared by `≤`, and a sorted
permutation of an integer list is unique, so the choice of algorithm is
immaterial). -/
def insertSorted (x : Int) : List Int → List Int
  | [] => [x]
  | y :: t => if x ≤ y then x :: y :: t else y :: insertSorted x t

def sortInts : List Int → List Int
  | [] => []
  | x :: t => insertSorted x (sortInts t)

/-- `SelectedDice::evaluate`: when more dice survived than `max_size`, sort
ascending and slice `[len-max..len]` (Higher) or `[0..max]` (Lower); otherwise
pass through unchanged. -/
def SelectedDice.evaluate : SelectedDice → EvalState →
    Except EvaluationErrors ((List Int × List Int) × EvalState)
  | .Unchanged d, s => d.evaluate s
  | .Selected d sel maxSize, s =>
    (d.evaluate s).map (fun r =>
      if maxSize < r.1.1.length then
        match sel with
        | .Higher => (((sortInts r.1.1).drop (r.1.1.length - maxSize), r.1.2), r.2)
        | .Lower => (((sortInts r.1.1).take maxSize, r.1.2), r.2)
      else r)

/-- The `reduce(|a, b| a + b).unwrap_or(0)` sum of `Term::evaluate`'s
`DiceThrow` arm: a plain (release-mode wrapping) `i64` fold, not checked
arithmetic. -/
def wrapSum : List Int → Int
  | [] => 0
  | h :: t => t.foldl (fun a b => wrap64 (a + b)) h

/-- `Term::evaluate`. -/
def Term.evaluate : Term → EvalState →
    Except EvaluationErrors ((Int × List Int) × EvalState)
  | .Constant i, s => .ok ((i, []), s)
  | .DiceThrow d, s => (d.evaluate s).map (fun r => ((wrapSum r.1.1, r.1.2), r.2))
  | .SubTerm t, s => t.evaluate s
  | .Calculation l op r, s =>
    match l.evaluate s with
    | .error e => .error e
    | .ok (lr, s1) =>
      match r.evaluate s1 with
      | .error e => .error e
      | .ok (rr, s2) =>
        match op with
        | .Add =>
          match checkedAdd lr.1 rr.1 with
          | some v => .ok ((v, lr.2 ++ rr.2), s2)
          | none => .error .Overflow
        | .Sub =>
          match checkedSub lr.1 rr.1 with
          | some v => .ok ((v, lr.2 ++ rr.2), s2)
          | none => .error .Overflow
        | .Mul =>
          match checkedMul lr.1 rr.1 with
          | some v => .ok ((v, lr.2 ++ rr.2), s2)
          | none => .error .Overflow
        | .Div =>
          match checkedDiv lr.1 rr.1 with
          | some v => .ok ((v, lr.2 ++ rr.2), s2)
          | none => .error .DivideByZero

/-! ## Precedence rearrangement (src/dice-roll/src/parser.rs, `rearange_term`) -/

/-- `rearange_term`: on a `Calculation` whose operator is `Mul` or `Div` and
whose right child is itself a `Calculation`, rotate once and recurse into the
rotated-out right grandchild; on every other `Calculation` recurse into the
right child only; descend through `SubTerm`; leave the rest alone. -/
def rearangeTerm : Term → Term
  | .Calculation l op r =>
    if op = .Mul ∨ op = .Div then
      match r with
      | .Calculation l' op' r' =>
        .Calculation (.Calculation l op l') op' (rearangeTerm r')
      | rr => .Calculation l op (rearangeTerm rr)
    else .Calculation l op (rearangeTerm r)
  | .SubTerm t => .SubTerm (rearangeTerm t)
  | t => t

/-! ## Textual rendering (src/dice-roll/src/dice_types.rs, the `Display`
implementations), over `List Char`. -/

/-- Decimal digits of a natural number (`Display` for `u32`/unsigned part of
`i64`). -/
def natChars (n : Nat) : List Char :=
  if h : n < 10 then [Char.ofNat (48 + n)]
  else
    have : n / 10 < n := Nat.div_lt_self (by omega) (by omega)
    natChars (n / 10) ++ [Char.ofNat (48 + n % 10)]

/-- `Display` for `i64`. -/
def intChars (i : Int) : List Char :=
  if i < 0 then '-' :: natChars (-i).toNat else natChars i.toNat

def renderDiceType : DiceType → List Char
  | .Number n => 'd' :: natChars n
  | .Fudge => ['d', 'F']
  | .Multiply n => 'd' :: natChars n ++ ['x']

def renderDice (d : Dice) : List Char :=
  natChars d.throws ++ renderDiceType d.dice

def renderFilter : DFilter → List Char
  | .Bigger => ['>']
  | .BiggerEq => ['>', '=']
  | .Smaller => ['<']
  | .SmallerEq => ['<', '=']
  | .NotEq => ['!', '=']

def renderFilteredDice : FilteredDice → List Char
  | .Simple d => renderDice d
  | .Filtered d f n => renderDice d ++ renderFilter f ++ natChars n

def renderSelector : Selector → List Char
  | .Higher => ['h']
  | .Lower => ['l']

def renderSelectedDice : SelectedDice → List Char
  | .Unchanged d => renderFilteredDice d
  | .Selected d sel n => renderFilteredDice d ++ renderSelector sel ++ natChars n

def renderOperation : Operation → List Char
  | .Mul => ['*']
  | .Div => ['/']
  | .Add => ['+']
  | .Sub => ['-']

def renderTerm : Term → List Char
  | .Constant c => intChars c
  | .DiceThrow d => renderSelectedDice d
  | .Calculation l op r =>
    renderTerm l ++ ' ' :: renderOperation op ++ ' ' :: renderTerm r
  | .SubTerm t => '(' :: renderTerm t ++ [')']

def renderExpression : Expression → List Char
  | .Simple t => renderTerm t
  | .List n t => natChars n ++ '{' :: renderTerm t ++ ['}']

/-! ## Parser (src/dice-roll/src/parser.rs)

The nom combinators are rebuilt over `List Char`: a parser takes the input and
returns `none` (nom `Err`) or the remaining input paired with the parsed
value. `alt` backtracks to the original input on failure, exactly as nom's
complete-input combinators do. -/

abbrev P (α : Type) := List Char → Option (List Char × α)

def pmap {α β : Type} (p : P α) (f : α → β) : P β :=
  fun s => (p s).map (fun r => (r.1, f r.2))

def pmapRes {α β : Type} (p : P α) (f : α → Option β) : P β :=
  fun s => (p s).bind (fun r => (f r.2).map (fun b => (r.1, b)))

def pverify {α : Type} (p : P α) (f : α → Bool) : P α :=
  fun s => (p s).bind (fun r => if f r.2 then some r else none)

def palt2 {α : Type} (p q : P α) : P α :=
  fun s => match p s with
  | some r => some r
  | none => q s

def ppair {α β : Type} (p : P α) (q : P β) : P (α × β) :=
  fun s => (p s).bind (fun r => (q r.1).map (fun r2 => (r2.1, (r.2, r2.2))))

def pterminated {α β : Type} (p : P α) (q : P β) : P α :=
  pmap (ppair p q) Prod.fst

def ppreceded {α β : Type} (p : P α) (q : P β) : P β :=
  pmap (ppair p q) Prod.snd

def pdelimited {α β γ : Type} (a : P α) (b : P β) (c : P γ) : P β :=
  pmap (ppair a (ppair b c)) (fun r => r.2.1)

def precognize {α : Type} (p : P α) : P (List Char) :=
  fun s => (p s).map (fun r => (r.1, s.take (s.length - r.1.length)))

def psuccess {α : Type} (v : α) : P α := fun s => some (s, v)

/-- nom `tag`: match a literal. -/
def ptag (t : List Char) : P (List Char) :=
  fun s => if t.isPrefixOf s then some (s.drop t.length, t) else none

/-- ASCII lower-casing, for nom `tag_no_case`. -/
def lowerC (c : Char) : Char :=
  if 'A' ≤ c ∧ c ≤ 'Z' then Char.ofNat (c.toNat + 32) else c

def ptagNoCase (t : List Char) : P (List Char) :=
  fun s =>
    if (s.take t.length).map lowerC = t.map lowerC ∧ t.length ≤ s.length then
      some (s.drop t.length, s.take t.length)
    else none

/-- nom `multispace0` character class. -/
def spaceB (c : Char) : Bool :=
  c = ' ' || c = '\t' || c = '\r' || c = '\n'

def pms0 : P Unit := fun s => some (s.dropWhile spaceB, ())

/-- nom `digit1`: one or more ASCII digits. -/
def pdigit1 : P (List Char) :=
  fun s =>
    let ds := s.takeWhile Char.isDigit
    if ds = [] then none else some (s.dropWhile Char.isDigit, ds)

/-- Decimal value of a digit string. -/
def digitsVal (cs : List Char) : Nat :=
  cs.foldl (fun a c => a * 10 + (c.toNat - 48)) 0

/-- Rust `str::parse::<u32>` (optional leading `+`, digits, range check). -/
def rustParseU32 (cs : List Char) : Option Nat :=
  let ds := match cs with | '+' :: t => t | _ => cs
  if ds ≠ [] ∧ ds.all Char.isDigit then
    if digitsVal ds ≤ u32Max then some (digitsVal ds) else none
  else none

/-- Rust `str::parse::<i64>` (optional sign, digits, range check against
`i64`). -/
def rustParseI64 (cs : List Char) : Option Int :=
  match cs with
  | '+' :: t =>
    if t ≠ [] ∧ t.all Char.isDigit ∧ (digitsVal t : Int) ≤ i64Max then
      some (digitsVal t)
    else none
  | '-' :: t =>
    if t ≠ [] ∧ t.all Char.isDigit ∧ (digitsVal t : Int) ≤ -i64Min then
      some (-(digitsVal t : Int))
    else none
  | _ =>
    if cs ≠ [] ∧ cs.all Char.isDigit ∧ (digitsVal cs : Int) ≤ i64Max then
      some (digitsVal cs)
    else none

/-- `parse_dice_digit`. -/
def parseDiceDigit : P (List Char) :=
  palt2 (ptagNoCase ['d']) (ptagNoCase ['w'])

/-- `parse_u32` (the `context` wrapper has no semantics). -/
def parseU32 : P Nat :=
  pverify (pmapRes pdigit1 rustParseU32) (fun v => 0 < v)

/-- `parse_i64`. -/
def parseI64 : P Int :=
  pmapRes
    (precognize (ppair (palt2 (ptag ['+']) (palt2 (ptag ['-']) (psuccess []))) pdigit1))
    rustParseI64

/-- `parse_dice_type`. -/
def parseDiceType : P DiceType :=
  palt2
    (pmap (pterminated parseU32 (pterminated pms0 (ptagNoCase ['x']))) DiceType.Multiply)
    (palt2 (pmap parseU32 DiceType.Number)
      (palt2 (pmap (ptagNoCase ['f']) (fun _ => DiceType.Fudge))
        (pmap (ptag ['%']) (fun _ => DiceType.Number 100))))

/-- `parse_dice`. -/
def parseDice : P Dice :=
  pmap
    (ppair (pterminated (palt2 parseU32 (psuccess 1)) pms0)
      (ppreceded parseDiceDigit (ppreceded pms0 parseDiceType)))
    (fun p => ⟨p.1, p.2⟩)

/-- `parse_filter`. -/
def parseFilter : P DFilter :=
  palt2 (pmap (ptag ['>', '=']) (fun _ => DFilter.BiggerEq))
    (palt2 (pmap (ptag ['>']) (fun _ => DFilter.Bigger))
      (palt2 (pmap (ptag ['<', '=']) (fun _ => DFilter.SmallerEq))
        (palt2 (pmap (ptag ['<']) (fun _ => DFilter.Smaller))
          (pmap (ptag ['!', '=']) (fun _ => DFilter.NotEq)))))

/-- `parse_filtered_dice`. -/
def parseFilteredDice : P FilteredDice :=
  palt2
    (pmap (ppair parseDice (ppair (pdelimited pms0 parseFilter pms0) parseU32))
      (fun r => .Filtered r.1 r.2.1 r.2.2))
    (pmap parseDice .Simple)

/-- `parse_selector`. -/
def parseSelector : P Selector :=
  palt2
    (pmap (palt2 (ptagNoCase ['h']) (ptagNoCase ['k'])) (fun _ => Selector.Higher))
    (pmap (ptagNoCase ['l']) (fun _ => Selector.Lower))

/-- `parse_selected_dice`. -/
def parseSelectedDice : P SelectedDice :=
  palt2
    (pmap (ppair parseFilteredDice (ppair (pdelimited pms0 parseSelector pms0) parseU32))
      (fun r => .Selected r.1 r.2.1 r.2.2))
    (pmap parseFilteredDice .Unchanged)

/-- `parse_term_roll`. -/
def parseTermRoll : P Term := pmap parseSelectedDice .DiceThrow

/-- `parse_term_constant`. -/
def parseTermConstant : P Term := pmap parseI64 .Constant

/-- `parse_operator`. -/
def parseOperator : P Operation :=
  palt2 (pmap (ptag ['+']) (fun _ => Operation.Add))
    (palt2 (pmap (ptag ['-']) (fun _ => Operation.Sub))
      (palt2 (pmap (ptag ['*']) (fun _ => Operation.Mul))
        (pmap (ptag ['/']) (fun _ => Operation.Div))))

def lparen : Char := '('

def rparen : Char := ')'

def lbrace : Char := Char.ofNat 123

def rbrace : Char := Char.ofNat 125

/-- `parse_term_subterm`, parameterised by the recursive `parse_term`. -/
def parseTermSubtermWith (p : P Term) : P Term :=
  pmap (pdelimited (ptag [lparen]) (pdelimited pms0 p pms0) (ptag [rparen]))
    (fun t => .SubTerm t)

/-- `parse_term_calculation`, parameterised by the recursive `parse_term`. -/
def parseTermCalculationWith (p : P Term) : P Term :=
  pmap
    (ppair (palt2 parseTermRoll (palt2 parseTermConstant (parseTermSubtermWith p)))
      (ppair (pdelimited pms0 parseOperator pms0) p))
    (fun r => .Calculation r.1 r.2.1 r.2.2)

/-- `parse_term`, with explicit fuel (the Rust recursion consumes at least one
character per nesting level, so any fuel above the input length is enough; the
top-level wrappers below instantiate it that way). -/
def parseTermF : Nat → P Term
  | 0 => fun _ => none
  | n + 1 =>
    palt2 (parseTermCalculationWith (parseTermF n))
      (palt2 parseTermRoll
        (palt2 parseTermConstant (parseTermSubtermWith (parseTermF n))))

/-- `parse_rearanged_term`. -/
def parseRearangedTermF (n : Nat) : P Term :=
  pmap (parseTermF n) rearangeTerm

/-- `parse_expression`, fueled. -/
def parseExpressionF (n : Nat) : P Expression :=
  palt2
    (pmap
      (ppair parseU32
        (ppreceded pms0
          (pdelimited (ptag [lbrace]) (pdelimited pms0 (parseRearangedTermF n) pms0)
            (ptag [rbrace]))))
      (fun r => .List r.1 r.2))
    (pmap (parseRearangedTermF n) .Simple)

/-- `parse_term` on an input, with sufficient fuel. -/
def parseTerm : P Term := fun s => parseTermF (s.length + 1) s

/-- `parse_expression` on an input, with sufficient fuel. -/
def parseExpression : P Expression := fun s => parseExpressionF (s.length + 1) s

/-! ## Storage actor (src/bot-utils/src/client_utils/storage.rs)

`VersionedRollExpr` is the alias payload (src/bot-utils/src/client_utils/mod.rs).
`ClientInformation` carries the live tenant configuration plus the four dirty
flags; the `HashMap` of aliases is modelled as an association list whose
`insert` replaces the binding in place (`HashMap::insert` returning the old
value), and whose `get` is `List.lookup`-style first lookup. Value (`Arc`)
equality in the source is structural equality of the payload. -/

inductive VersionedRollExpr where
  | V1 (e : Expression)
  | V2 (e : LabeledExpression)
  deriving DecidableEq, Repr

structure ClientInformation where
  commandPrefixF : String
  rollInfoF : Bool
  rollPrefixF : List String
  aliasesF : List (String × VersionedRollExpr)
  commandPrefixChanged : Bool
  rollPrefixChanged : Bool
  aliasesChanged : Bool
  rollInfoChanged : Bool
  deriving DecidableEq, Repr

/-- The in-memory entry constructed from a freshly inserted default row
(`ClientConfig::new` followed by `ClientInformation::new` with both JSON
parses succeeding on the defaults). -/
def defaultClient : ClientInformation :=
  { commandPrefixF := "rrb!"
    rollInfoF := false
    rollPrefixF := []
    aliasesF := []
    commandPrefixChanged := false
    rollPrefixChanged := false
    aliasesChanged := false
    rollInfoChanged := false }

/-- `HashMap::get` on the alias map. -/
def mapGet (k : String) : List (String × VersionedRollExpr) → Option VersionedRollExpr
  | [] => none
  | (k', v) :: t => if k' = k then some v else mapGet k t

/-- `HashMap::insert` on the alias map: replaces the existing binding in place
and returns the previous value. -/
def mapInsert (k : String) (v : VersionedRollExpr) :
    List (String × VersionedRollExpr) →
    Option VersionedRollExpr × List (String × VersionedRollExpr)
  | [] => (none, [(k, v)])
  | (k', v') :: t =>
    if k' = k then (some v', (k, v) :: t)
    else
      let r := mapInsert k v t
      (r.1, (k', v') :: r.2)

/-- The `StorageOps::AddRollPrefix` arm of `run_cmd`: the reply, the updated
entry, and `run_cmd`'s boolean return (the write-back trigger). The `Err`
path uses the non-mutating getter, so it flips no dirty flag. -/
def addRollPrefixOp (client : ClientInformation) (p : String) :
    Except Unit Unit × ClientInformation × Bool :=
  if client.rollPrefixF.contains p then (.error (), client, true)
  else
    (.ok (),
      { client with rollPrefixF := client.rollPrefixF ++ [p], rollPrefixChanged := true },
      true)

/-- The `StorageOps::AddAlias` arm of `run_cmd`: `get_aliases_mut().insert(..)`
always marks the alias map dirty and installs the new expression, and only
afterwards is the previous value compared to decide the reply. -/
def addAliasOp (client : ClientInformation) (name : String) (expr : VersionedRollExpr) :
    Except Unit Unit × ClientInformation × Bool :=
  let r := mapInsert name expr client.aliasesF
  (match r.1 with
   | some old => if old = expr then .error () else .ok ()
   | none => .ok (),
    { client with aliasesF := r.2, aliasesChanged := true },
    true)

/-- The `StorageOps::Get` arm of `run_cmd` (the GetBundle hot path): all four
components are read through the non-mutating getters and `run_cmd` returns
`false`. -/
def getOp (client : ClientInformation) (names : List String) :
    (String × List String × List VersionedRollExpr × Bool) × ClientInformation × Bool :=
  ((client.commandPrefixF,
    client.rollPrefixF,
    names.filterMap (fun n => mapGet n client.aliasesF),
    client.rollInfoF),
    client,
    false)

/-! ## Dispatcher fragment (src/bot-utils/src/client_utils/mod.rs)

The `AddAlias` arm of `ClientUtils::eval` calls
`self.store.add_alias(..).await.unwrap()`. A panic of that `unwrap` is
modelled as `none`. -/

inductive CommandResult where
  | AddAliasOk
  | InsufficentPermission
  deriving DecidableEq, Repr

/-- The `commands::Command::AddAlias` arm of `ClientUtils::eval`, given the
permission-check outcome and the tenant's cached entry; `none` models the
panic of `.unwrap()` on `Err(())`. -/
def evalAddAlias (perm : Bool) (client : ClientInformation) (name : String)
    (expr : VersionedRollExpr) : Option (CommandResult × ClientInformation) :=
  if perm then
    match addAliasOp client name expr with
    | (.error (), _, _) => none
    | (.ok (), client', _) => some (.AddAliasOk, client')
  else some (.InsufficentPermission, client)

/-! ## Helper lemmas -/

lemma mapInsert_fst (k : String) (v : VersionedRollExpr)
    (m : List (String × VersionedRollExpr)) : (mapInsert k v m).1 = mapGet k m := by
  induction m with
  | nil => rfl
  | cons h t ih =>
    obtain ⟨k', v'⟩ := h
    simp only [mapInsert, mapGet]
    split <;> simp [ih]

lemma mapInsert_self (k : String) (v : VersionedRollExpr)
    (m : List (String × VersionedRollExpr)) (h : mapGet k m = some v) :
    (mapInsert k v m).2 = m := by
  induction m with
  | nil => simp [mapGet] at h
  | cons hd t ih =>
    obtain ⟨k', v'⟩ := hd
    simp only [mapGet] at h
    simp only [mapInsert]
    by_cases hk : k' = k
    · simp only [if_pos hk] at h ⊢
      obtain rfl := hk
      simp_all
    · simp only [if_neg hk] at h ⊢
      simp [ih h]

/-! ## Claim C1 -/

/-- Example evaluation state: raw draws 1,2,2,4 (producing d6 rolls 2,3,3,5)
and a timeout stream that is never true. -/
def exState1 : EvalState :=
  { rng := fun i => [1, 2, 2, 4].getD i 0, rpos := 0, tf := fun _ => false, tpos := 0 }

def exState1After : EvalState :=
  { rng := fun i => [1, 2, 2, 4].getD i 0, rpos := 4, tf := fun _ => false, tpos := 1 }

/-- C1: a `Filtered` dice evaluation with filter `BiggerEq` and target `t`
retains a rolled value `v` iff `v > t` (strict), so `BiggerEq` behaves
identically to `Bigger`; in particular rolls `[2,3,3,5]` filtered with `>=3`
retain exactly `[5]`. -/
theorem C1_biggerEq_strict :
    (∀ (d : Dice) (t : Nat) (s : EvalState),
      FilteredDice.evaluate (.Filtered d .BiggerEq t) s
        = FilteredDice.evaluate (.Filtered d .Bigger t) s)
    ∧ (∀ (d : Dice) (t : Nat) (s : EvalState) (vs orig : List Int) (s' : EvalState),
      Dice.evaluate d s = .ok ((vs, orig), s') →
      FilteredDice.evaluate (.Filtered d .BiggerEq t) s
        = .ok ((vs.filter (fun v => decide (v > (t : Int))), orig), s'))
    ∧ FilteredDice.evaluate (.Filtered ⟨4, .Number 6⟩ .BiggerEq 3) exState1
        = .ok (([5], [2, 3, 3, 5]), exState1After) := by
  refine ⟨fun d t s => rfl, fun d t s vs orig s' h => ?_, by rfl⟩
  simp only [FilteredDice.evaluate, h, Except.map]
  rfl

/-- Witness for C1: a concrete instance of the second conjunct. -/
theorem C1_biggerEq_strict_witness :
    FilteredDice.evaluate (.Filtered ⟨4, .Number 6⟩ .BiggerEq 3) exState1
      = .ok ((List.filter (fun v => decide (v > (3 : Int))) [2, 3, 3, 5],
          [2, 3, 3, 5]), exState1After) :=
  C1_biggerEq_strict.2.1 ⟨4, .Number 6⟩ 3 exState1 [2, 3, 3, 5] [2, 3, 3, 5]
    exState1After (by rfl)

/-! ## Claim C2 -/

/-- C2 (amended): `Calculation` evaluates the left child first, then the
right child on the resulting state, concatenates their roll lists left then
right, and applies the operator with checked `i64` arithmetic; overflow in
`Add`, `Sub` and `Mul` yields `Overflow`, while a failing `checked_div`
(divisor `0`, or the overflowing `i64::MIN / -1`) yields `DivideByZero`. The
sum of a `DiceThrow`'s filtered rolls is an unchecked (release-mode wrapping)
`i64` fold and never produces `Overflow`. Errors of either child propagate. -/
theorem C2_calculation_checked :
    (∀ (l r : Term) (s : EvalState) (lv : Int) (lrolls : List Int) (s1 : EvalState)
      (rv : Int) (rrolls : List Int) (s2 : EvalState),
      Term.evaluate l s = .ok ((lv, lrolls), s1) →
      Term.evaluate r s1 = .ok ((rv, rrolls), s2) →
      (Term.evaluate (.Calculation l .Add r) s =
        (if inI64 (lv + rv) then .ok ((lv + rv, lrolls ++ rrolls), s2)
         else .error .Overflow))
      ∧ (Term.evaluate (.Calculation l .Sub r) s =
        (if inI64 (lv - rv) then .ok ((lv - rv, lrolls ++ rrolls), s2)
         else .error .Overflow))
      ∧ (Term.evaluate (.Calculation l .Mul r) s =
        (if inI64 (lv * rv) then .ok ((lv * rv, lrolls ++ rrolls), s2)
         else .error .Overflow))
      ∧ (Term.evaluate (.Calculation l .Div r) s =
        (if rv = 0 ∨ (lv = i64Min ∧ rv = -1) then .error .DivideByZero
         else .ok ((Int.tdiv lv rv, lrolls ++ rrolls), s2))))
    ∧ (∀ (l r : Term) (op : Operation) (s : EvalState) (e : EvaluationErrors),
      Term.evaluate l s = .error e →
      Term.evaluate (.Calculation l op r) s = .error e)
    ∧ (∀ (l r : Term) (op : Operation) (s : EvalState) (lres : Int × List Int)
      (s1 : EvalState) (e : EvaluationErrors),
      Term.evaluate l s = .ok (lres, s1) →
      Term.evaluate r s1 = .error e →
      Term.evaluate (.Calculation l op r) s = .error e)
    ∧ (∀ (sd : SelectedDice) (s : EvalState) (vs orig : List Int) (s' : EvalState),
      SelectedDice.evaluate sd s = .ok ((vs, orig), s') →
      Term.evaluate (.DiceThrow sd) s = .ok ((wrapSum vs, orig), s')) := by
  refine ⟨fun l r s lv lrolls s1 rv rrolls s2 hl hr => ?_,
    fun l r op s e hl => ?_, fun l r op s lres s1 e hl hr => ?_,
    fun sd s vs orig s' h => ?_⟩
  · refine ⟨?_, ?_, ?_, ?_⟩
    · simp only [Term.evaluate, hl, hr, checkedAdd]
      by_cases h : inI64 (lv + rv) <;> simp [h]
    · simp only [Term.evaluate, hl, hr, checkedSub]
      by_cases h : inI64 (lv - rv) <;> simp [h]
    · simp only [Term.evaluate, hl, hr, checkedMul]
      by_cases h : inI64 (lv * rv) <;> simp [h]
    · simp only [Term.evaluate, hl, hr, checkedDiv]
      by_cases h : rv = 0 ∨ (lv = i64Min ∧ rv = -1) <;> simp [h]
  · simp [Term.evaluate, hl]
  · simp only [Term.evaluate, hl, hr]
  · simp [Term.evaluate, h, Except.map]

/-- Witness for C2: `1 + 2` through the `Calculation` arm. -/
theorem C2_calculation_checked_witness :
    Term.evaluate (.Calculation (.Constant 1) .Add (.Constant 2)) exState1 =
      (if inI64 (1 + 2) then .ok (((1 : Int) + 2, ([] : List Int) ++ []), exState1)
       else .error .Overflow) :=
  (C2_calculation_checked.1 (.Constant 1) (.Constant 2) exState1 1 [] exState1 2 []
    exState1 (by rfl) (by rfl)).1

/-- Evaluation state for the C2 counterexample: every raw draw is
`3037000498`, so a `d3037000499x` die rolls
`3037000499 * 3037000499 = 9223372030926249001`, which fits `i64`; two such
rolls sum (wrapping) to `-11857053614`. -/
def cexState2 : EvalState :=
  { rng := fun _ => 3037000498, rpos := 0, tf := fun _ => false, tpos := 0 }

def cexState2After : EvalState :=
  { rng := fun _ => 3037000498, rpos := 4, tf := fun _ => false, tpos := 1 }

/-- Counterexample to C2 as stated: the `Div` overflow `i64::MIN / -1` is
reported as `DivideByZero`, not `Overflow`, and an overflowing sum of a
`DiceThrow`'s rolls wraps and succeeds instead of yielding `Overflow`. -/
theorem C2_counterexample :
    Term.evaluate (.Calculation (.Constant i64Min) .Div (.Constant (-1))) exState1
      = .error .DivideByZero
    ∧ Term.evaluate (.Calculation (.Constant i64Min) .Div (.Constant (-1))) exState1
      ≠ .error .Overflow
    ∧ Term.evaluate (.DiceThrow (.Unchanged (.Simple ⟨2, .Multiply 3037000499⟩)))
        cexState2
      = .ok ((-11857053614, [9223372030926249001, 9223372030926249001]), cexState2After)
    ∧ (9223372030926249001 : Int) + 9223372030926249001 > i64Max := by
  refine ⟨by rfl, ?_, by rfl, by decide⟩
  intro h
  rw [show Term.evaluate (.Calculation (.Constant i64Min) .Div (.Constant (-1))) exState1
      = .error .DivideByZero from rfl] at h
  exact absurd (Except.error.inj h) (by decide)

/-! ## Claim C3 -/

/-- `t` is not a `Calculation` node. -/
def notCalc : Term → Prop
  | .Calculation _ _ _ => False
  | _ => True

/-- C3 (amended): the rearrangement recurses along the right spine only (and
through `SubTerm`): at a `Calculation(l, op, Calculation(l', op', r'))` with
`op ∈ {Mul, Div}` it rotates exactly once to
`Calculation(Calculation(l, op, l'), op', rearange(r'))`, leaving the rotated
left part unvisited; every other `Calculation` keeps its left child untouched
and recurses only into its right child; non-`Calculation`, non-`SubTerm`
nodes are returned unchanged. Left children — including parenthesised
sub-terms inside them — are never revisited, and chains like `8/2/2/2` are
not made fully left-associative. -/
theorem C3_rearrange_shape :
    (∀ (l : Term) (op : Operation) (l' : Term) (op' : Operation) (r' : Term),
      op = .Mul ∨ op = .Div →
      rearangeTerm (.Calculation l op (.Calculation l' op' r'))
        = .Calculation (.Calculation l op l') op' (rearangeTerm r'))
    ∧ (∀ (l : Term) (op : Operation) (r : Term),
      op = .Add ∨ op = .Sub →
      rearangeTerm (.Calculation l op r) = .Calculation l op (rearangeTerm r))
    ∧ (∀ (l : Term) (op : Operation) (r : Term),
      notCalc r →
      rearangeTerm (.Calculation l op r) = .Calculation l op (rearangeTerm r))
    ∧ (∀ t : Term, rearangeTerm (.SubTerm t) = .SubTerm (rearangeTerm t))
    ∧ (∀ i : Int, rearangeTerm (.Constant i) = .Constant i)
    ∧ (∀ d : SelectedDice, rearangeTerm (.DiceThrow d) = .DiceThrow d) := by
  refine ⟨fun l op l' op' r' h => ?_, fun l op r h => ?_, fun l op r h => ?_,
    fun t => rfl, fun i => rfl, fun d => rfl⟩
  · rcases h with h | h <;> subst h <;> rfl
  · rcases h with h | h <;> subst h <;> cases r <;> rfl
  · cases r <;> first
      | rfl
      | (cases op <;> first | rfl | exact absurd h (by simp [notCalc]))

/-- Witness for C3: the rotation at a concrete `Mul` node. -/
theorem C3_rearrange_shape_witness :
    rearangeTerm (.Calculation (.Constant 1) .Mul
        (.Calculation (.Constant 2) .Add (.Constant 3)))
      = .Calculation (.Calculation (.Constant 1) .Mul (.Constant 2)) .Add
          (rearangeTerm (.Constant 3)) :=
  C3_rearrange_shape.1 (.Constant 1) .Mul (.Constant 2) .Add (.Constant 3) (Or.inl rfl)

/-- The parse of `"(2*3+4)+5"`: a term whose left child holds an unrotated
`Mul`-over-`Calculation` redex. -/
def c3ex1 : Term :=
  .Calculation
    (.SubTerm (.Calculation (.Constant 2) .Mul
      (.Calculation (.Constant 3) .Add (.Constant 4))))
    .Add (.Constant 5)

/-- The parse of `"8/2/2/2"` (right-associated). -/
def c3ex2 : Term :=
  .Calculation (.Constant 8) .Div
    (.Calculation (.Constant 2) .Div (.Calculation (.Constant 2) .Div (.Constant 2)))

/-- Counterexample to C3 as stated: the walk does not reach redexes inside
left children (the parsed `"(2*3+4)+5"` is returned unchanged although its
left child contains `Calculation(2, Mul, Calculation(3, Add, 4))`), and `*`
and `/` do not become left-associative (`"8/2/2/2"` rearranges to
`(8/2)/(2/2)`, not `((8/2)/2)/2`); a genuine everywhere-rotation would also
be idempotent, which `rearange_term` is not. -/
theorem C3_counterexample :
    parseTerm (['('] ++ ['2', '*', '3', '+', '4'] ++ [')'] ++ ['+', '5'])
      = some ([], c3ex1)
    ∧ rearangeTerm c3ex1 = c3ex1
    ∧ c3ex1 = .Calculation
        (.SubTerm (.Calculation (.Constant 2) .Mul
          (.Calculation (.Constant 3) .Add (.Constant 4))))
        .Add (.Constant 5)
    ∧ parseTerm ['8', '/', '2', '/', '2', '/', '2'] = some ([], c3ex2)
    ∧ rearangeTerm c3ex2
      = .Calculation (.Calculation (.Constant 8) .Div (.Constant 2)) .Div
          (.Calculation (.Constant 2) .Div (.Constant 2))
    ∧ rearangeTerm c3ex2
      ≠ .Calculation
          (.Calculation (.Calculation (.Constant 8) .Div (.Constant 2)) .Div
            (.Constant 2))
          .Div (.Constant 2)
    ∧ rearangeTerm (rearangeTerm c3ex2) ≠ rearangeTerm c3ex2 := by
  refine ⟨by rfl, by rfl, by rfl, by rfl, by rfl, by decide, by decide⟩

/-! ## Claim C5 -/

/-- C5: the `Get` (GetBundle) arm replies with the tenant's command prefix,
its full roll-prefix list, the alias expressions found for the candidate
names — in candidate order, skipping absent names — and the verbose flag,
and it neither mutates the cached entry nor requests a write-back. -/
theorem C5_getBundle (client : ClientInformation) (names : List String) :
    (getOp client names).1.1 = client.commandPrefixF
    ∧ (getOp client names).1.2.1 = client.rollPrefixF
    ∧ (getOp client names).1.2.2.1
      = names.filterMap (fun n => mapGet n client.aliasesF)
    ∧ (getOp client names).1.2.2.2 = client.rollInfoF
    ∧ (getOp client names).2.1 = client
    ∧ (getOp client names).2.2 = false
    ∧ (∀ (n : String) (ns : List String),
      (getOp client (n :: ns)).1.2.2.1
        = (match mapGet n client.aliasesF with
           | some e => e :: (getOp client ns).1.2.2.1
           | none => (getOp client ns).1.2.2.1)) := by
  refine ⟨rfl, rfl, rfl, rfl, rfl, rfl, fun n ns => ?_⟩
  simp only [getOp, List.filterMap_cons]
  cases mapGet n client.aliasesF <;> simp

/-! ## Claim C6 -/

/-- C6 (amended): `AddRollPrefix` replies `Err(())` iff the prefix is already
present and otherwise appends it at the end; in its `Err` case the entry is
completely unchanged. `AddAlias` replies `Err(())` iff the map already binds
the name to an equal expression; in its `Err` case the alias map's contents
are unchanged, but the aliases dirty flag is set unconditionally (the insert
happens before the old value is compared), so `AddAlias` marks the entry
dirty even when it returns `Err`. -/
theorem C6_add_ops :
    (∀ (client : ClientInformation) (p : String),
      ((addRollPrefixOp client p).1 = .error () ↔ p ∈ client.rollPrefixF)
      ∧ (p ∈ client.rollPrefixF → (addRollPrefixOp client p).2.1 = client)
      ∧ (p ∉ client.rollPrefixF →
        (addRollPrefixOp client p).1 = .ok ()
        ∧ (addRollPrefixOp client p).2.1
          = { client with
              rollPrefixF := client.rollPrefixF ++ [p]
              rollPrefixChanged := true }))
    ∧ (∀ (client : ClientInformation) (name : String) (expr : VersionedRollExpr),
      ((addAliasOp client name expr).1 = .error ()
        ↔ mapGet name client.aliasesF = some expr)
      ∧ (addAliasOp client name expr).2.1.aliasesChanged = true
      ∧ (mapGet name client.aliasesF = some expr →
        (addAliasOp client name expr).2.1 = { client with aliasesChanged := true })) := by
  constructor
  · intro client p
    refine ⟨?_, fun h => ?_, fun h => ?_⟩
    · simp only [addRollPrefixOp]
      by_cases h : p ∈ client.rollPrefixF <;> simp [h]
    · simp [addRollPrefixOp, h]
    · simp [addRollPrefixOp, h]
  · intro client name expr
    refine ⟨?_, rfl, fun h => ?_⟩
    · simp only [addAliasOp, mapInsert_fst]
      cases hg : mapGet name client.aliasesF with
      | none => simp
      | some old =>
        by_cases ho : old = expr
        · subst ho; simp
        · simp [ho, Ne.symm ho]
    · simp [addAliasOp, mapInsert_self name expr client.aliasesF h]

/-- Witness for C6: adding a fresh roll prefix to the default tenant. -/
theorem C6_add_ops_witness :
    (addRollPrefixOp defaultClient "r ").1 = .ok ()
    ∧ (addAliasOp { defaultClient with
          aliasesF := [("a", .V1 (.Simple (.Constant 1)))] } "a"
        (.V1 (.Simple (.Constant 1)))).2.1
      = { defaultClient with
          aliasesF := [("a", .V1 (.Simple (.Constant 1)))]
          aliasesChanged := true } :=
  ⟨((C6_add_ops.1 defaultClient "r ").2.2 (by simp [defaultClient])).1,
    (C6_add_ops.2 { defaultClient with
        aliasesF := [("a", .V1 (.Simple (.Constant 1)))] } "a"
      (.V1 (.Simple (.Constant 1)))).2.2 (by rfl)⟩

/-- Counterexample to C6 as stated: an `AddAlias` that returns `Err(())`
still sets the aliases dirty flag, so the tenant configuration is not left
unchanged in every `Err` case. -/
theorem C6_counterexample :
    (addAliasOp { defaultClient with
        aliasesF := [("a", .V1 (.Simple (.Constant 1)))] } "a"
      (.V1 (.Simple (.Constant 1)))).1 = .error ()
    ∧ (addAliasOp { defaultClient with
        aliasesF := [("a", .V1 (.Simple (.Constant 1)))] } "a"
      (.V1 (.Simple (.Constant 1)))).2.1.aliasesChanged = true
    ∧ ({ defaultClient with
        aliasesF := [("a", .V1 (.Simple (.Constant 1)))] } :
        ClientInformation).aliasesChanged = false := ⟨rfl, rfl, rfl⟩

/-! ## Claim C10 -/

def c10expr : VersionedRollExpr := .V1 (.Simple (.Constant 1))

def c10client : ClientInformation :=
  { defaultClient with aliasesF := [("stats", c10expr)], aliasesChanged := true }

/-- C10: the dispatcher's `AddAlias` arm panics on a reachable input: from the
default tenant state, a first permitted `AddAlias("stats", e)` succeeds, and
repeating the very same command makes the storage call return `Err(())`,
which `eval` unwraps — modelled as `none` — instead of producing a
`CommandResult`. -/
theorem C10_addAlias_panics :
    evalAddAlias true defaultClient "stats" c10expr = some (.AddAliasOk, c10client)
    ∧ evalAddAlias true c10client "stats" c10expr = none := ⟨rfl, rfl⟩

/-! ## Evaluator lemmas for C7 and C8 -/

lemma sample_bounds (lo hi : Int) (h : lo ≤ hi) (s : EvalState) :
    lo ≤ (sample lo hi s).1 ∧ (sample lo hi s).1 ≤ hi := by
  unfold sample
  simp only
  have hm : s.rng s.rpos % (hi - lo + 1).toNat < (hi - lo + 1).toNat :=
    Nat.mod_lt _ (by omega)
  have hcast : Int.ofNat (s.rng s.rpos % (hi - lo + 1).toNat)
      = ((s.rng s.rpos % (hi - lo + 1).toNat : Nat) : Int) := rfl
  rw [hcast]
  constructor <;> omega

lemma sample_tf (lo hi : Int) (s : EvalState) : ((sample lo hi s).2).tf = s.tf := rfl

lemma callTimeout_tf (s : EvalState) : ((callTimeout s).2).tf = s.tf := rfl

/-- Generic success/overflow analysis of the rolling loop, given a step
analysis of `rollOne`. -/
lemma rollLoop_spec (dk : DiceType) (pv : Int → Prop)
    (hstep : ∀ s : EvalState,
      (∃ r, rollOne dk s = .ok r ∧ pv r.1 ∧ r.2.tf = s.tf)
      ∨ rollOne dk s = .error .Overflow) :
    ∀ (n c : Nat) (s : EvalState), s.tf = (fun _ => false) →
      (∃ vs s', rollLoop dk n c s = .ok (vs, s') ∧ vs.length = n ∧ ∀ v ∈ vs, pv v)
      ∨ rollLoop dk n c s = .error .Overflow := by
  intro n
  induction n with
  | zero => intro c s _; exact Or.inl ⟨[], s, rfl, rfl, by simp⟩
  | succ m ih =>
    intro c s htf
    have hctf : (callTimeout s).1 = false := by simp [callTimeout, htf]
    have htfc : ((callTimeout s).2).tf = (fun _ => false) := by
      rw [callTimeout_tf, htf]
    by_cases hc : (c + 1) % 256 = 0
    · have hmain : rollLoop dk (m + 1) c s =
          match rollOne dk (callTimeout s).2 with
          | .error e => .error e
          | .ok r => (rollLoop dk m ((c + 1) % 256) r.2).map
              (fun q => (r.1 :: q.1, q.2)) := by
        simp only [rollLoop, hc, if_pos, hctf, Bool.false_eq_true, if_neg,
          not_false_iff]
      rcases hstep (callTimeout s).2 with ⟨r, hro, hpv, htf'⟩ | hro
      · have htf2 : r.2.tf = (fun _ => false) := by rw [htf', htfc]
        rcases ih ((c + 1) % 256) r.2 htf2 with ⟨vs, s2, hloop, hlen, hall⟩ | hloop
        · refine Or.inl ⟨r.1 :: vs, s2, ?_, by simp [hlen], ?_⟩
          · rw [hmain]
            simp only [hro, hloop, Except.map]
          · intro x hx
            rcases List.mem_cons.mp hx with rfl | hx
            · exact hpv
            · exact hall x hx
        · refine Or.inr ?_
          rw [hmain]
          simp only [hro, hloop, Except.map]
      · refine Or.inr ?_
        rw [hmain]
        simp only [hro]
    · have hmain : rollLoop dk (m + 1) c s =
          match rollOne dk s with
          | .error e => .error e
          | .ok r => (rollLoop dk m ((c + 1) % 256) r.2).map
              (fun q => (r.1 :: q.1, q.2)) := by
        simp only [rollLoop, hc, if_neg, ite_false, not_false_iff]
      rcases hstep s with ⟨r, hro, hpv, htf'⟩ | hro
      · have htf2 : r.2.tf = (fun _ => false) := by rw [htf', htf]
        rcases ih ((c + 1) % 256) r.2 htf2 with ⟨vs, s2, hloop, hlen, hall⟩ | hloop
        · refine Or.inl ⟨r.1 :: vs, s2, ?_, by simp [hlen], ?_⟩
          · rw [hmain]
            simp only [hro, hloop, Except.map]
          · intro x hx
            rcases List.mem_cons.mp hx with rfl | hx
            · exact hpv
            · exact hall x hx
        · refine Or.inr ?_
          rw [hmain]
          simp only [hro, hloop, Except.map]
      · refine Or.inr ?_
        rw [hmain]
        simp only [hro]

/-- On success the rolling loop produces exactly `n` rolls (no assumption on
the timeout stream). -/
lemma rollLoop_length (dk : DiceType) :
    ∀ (n c : Nat) (s : EvalState) (vs : List Int) (s' : EvalState),
      rollLoop dk n c s = .ok (vs, s') → vs.length = n := by
  intro n
  induction n with
  | zero =>
    intro c s vs s' h
    simp only [rollLoop] at h
    cases h
    rfl
  | succ m ih =>
    intro c s vs s' h
    simp only [rollLoop] at h
    split at h
    · split at h
      · cases h
      · rcases hro : rollOne dk (callTimeout s).2 with e | r
        · simp only [hro] at h
          cases h
        · simp only [hro] at h
          rcases hloop : rollLoop dk m ((c + 1) % 256) r.2 with e | q
          · simp only [hloop, Except.map] at h
            cases h
          · simp only [hloop, Except.map] at h
            cases h
            simp [ih _ _ _ _ hloop]
    · rcases hro : rollOne dk s with e | r
      · simp only [hro] at h
        cases h
      · simp only [hro] at h
        rcases hloop : rollLoop dk m ((c + 1) % 256) r.2 with e | q
        · simp only [hloop, Except.map] at h
          cases h
        · simp only [hloop, Except.map] at h
          cases h
          simp [ih _ _ _ _ hloop]

/-- On success `Dice::evaluate` returns `throws` rolls and an identical
copy. -/
lemma diceEvaluate_length (d : Dice) (s : EvalState) (vs orig : List Int)
    (s' : EvalState) (h : Dice.evaluate d s = .ok ((vs, orig), s')) :
    vs.length = d.throws ∧ orig = vs := by
  unfold Dice.evaluate at h
  split at h
  · cases h
  · rcases hloop : rollLoop d.dice d.throws 0 (callTimeout s).2 with e | r
    · simp only [hloop, Except.map] at h
      cases h
    · simp only [hloop, Except.map] at h
      cases h
      exact ⟨rollLoop_length _ _ _ _ _ _ hloop, rfl⟩

/-- The underlying `Dice` of a `FilteredDice`. -/
def FilteredDice.diceOf : FilteredDice → Dice
  | .Simple d => d
  | .Filtered d _ _ => d

/-- On success a `FilteredDice` evaluation has at most `throws` surviving
rolls. -/
lemma filteredEvaluate_length (fd : FilteredDice) (s : EvalState)
    (vs orig : List Int) (s' : EvalState)
    (h : FilteredDice.evaluate fd s = .ok ((vs, orig), s')) :
    vs.length ≤ fd.diceOf.throws := by
  cases fd with
  | Simple d =>
    exact le_of_eq (diceEvaluate_length d s vs orig s' h).1
  | Filtered d f target =>
    simp only [FilteredDice.evaluate] at h
    rcases hd : Dice.evaluate d s with e | r
    · simp only [hd, Except.map] at h
      cases h
    · simp only [hd, Except.map] at h
      obtain ⟨⟨vs2, orig2⟩, s2⟩ := r
      cases h
      calc (vs2.filter (filterFn f target)).length ≤ vs2.length :=
            List.length_filter_le _ _
        _ = d.throws := (diceEvaluate_length d s vs2 orig2 s2 hd).1

/-- Success analysis of the rolling loop when `rollOne` cannot fail. -/
lemma rollLoop_total (dk : DiceType) (pv : Int → Prop)
    (hstep : ∀ s : EvalState, ∃ r, rollOne dk s = .ok r ∧ pv r.1 ∧ r.2.tf = s.tf) :
    ∀ (n c : Nat) (s : EvalState), s.tf = (fun _ => false) →
      ∃ vs s', rollLoop dk n c s = .ok (vs, s') ∧ vs.length = n ∧ ∀ v ∈ vs, pv v := by
  intro n
  induction n with
  | zero => intro c s _; exact ⟨[], s, rfl, rfl, by simp⟩
  | succ m ih =>
    intro c s htf
    have hctf : (callTimeout s).1 = false := by simp [callTimeout, htf]
    have htfc : ((callTimeout s).2).tf = (fun _ => false) := by
      rw [callTimeout_tf, htf]
    by_cases hc : (c + 1) % 256 = 0
    · have hmain : rollLoop dk (m + 1) c s =
          match rollOne dk (callTimeout s).2 with
          | .error e => .error e
          | .ok r => (rollLoop dk m ((c + 1) % 256) r.2).map
              (fun q => (r.1 :: q.1, q.2)) := by
        simp only [rollLoop, hc, if_pos, hctf, Bool.false_eq_true, if_neg,
          not_false_iff]
      obtain ⟨r, hro, hpv, htf2⟩ := hstep (callTimeout s).2
      obtain ⟨vs, s2, hloop, hlen, hall⟩ :=
        ih ((c + 1) % 256) r.2 (by rw [htf2, htfc])
      refine ⟨r.1 :: vs, s2, ?_, by simp [hlen], ?_⟩
      · rw [hmain]
        simp only [hro, hloop, Except.map]
      · intro x hx
        rcases List.mem_cons.mp hx with rfl | hx
        · exact hpv
        · exact hall x hx
    · have hmain : rollLoop dk (m + 1) c s =
          match rollOne dk s with
          | .error e => .error e
          | .ok r => (rollLoop dk m ((c + 1) % 256) r.2).map
              (fun q => (r.1 :: q.1, q.2)) := by
        simp only [rollLoop, hc, if_neg, ite_false, not_false_iff]
      obtain ⟨r, hro, hpv, htf2⟩ := hstep s
      obtain ⟨vs, s2, hloop, hlen, hall⟩ :=
        ih ((c + 1) % 256) r.2 (by rw [htf2, htf])
      refine ⟨r.1 :: vs, s2, ?_, by simp [hlen], ?_⟩
      · rw [hmain]
        simp only [hro, hloop, Except.map]
      · intro x hx
        rcases List.mem_cons.mp hx with rfl | hx
        · exact hpv
        · exact hall x hx

lemma insertSorted_length (x : Int) (l : List Int) :
    (insertSorted x l).length = l.length + 1 := by
  induction l with
  | nil => rfl
  | cons y t ih =>
    simp only [insertSorted]
    split <;> simp [ih]

lemma sortInts_length (l : List Int) : (sortInts l).length = l.length := by
  induction l with
  | nil => rfl
  | cons x t ih => simp [sortInts, insertSorted_length, ih]

/-! ## Claim C7 -/

lemma one_le_intOfNat (n : Nat) (h : 1 ≤ n) : (1 : Int) ≤ Int.ofNat n := by
  show (1 : Int) ≤ (n : Int)
  exact_mod_cast h

/-- C7: with a timeout stream that is never true and `1 ≤ n`, evaluating
`Dice { throws := t, dice := Number n }` succeeds with exactly `t` rolls all
in `[1, n]`; `Fudge` succeeds with `t` rolls all in `{-1, 0, 1}`; and
`Multiply n` either succeeds with `t` rolls all in `[1, n*n]` or returns
`Err(Overflow)`. -/
theorem C7_evaluator_bounds :
    ∀ (t n : Nat) (s : EvalState), s.tf = (fun _ => false) → 1 ≤ n →
      (∃ vs s', Dice.evaluate ⟨t, .Number n⟩ s = .ok ((vs, vs), s')
        ∧ vs.length = t ∧ ∀ v ∈ vs, 1 ≤ v ∧ v ≤ (n : Int))
      ∧ (∃ vs s', Dice.evaluate ⟨t, .Fudge⟩ s = .ok ((vs, vs), s')
        ∧ vs.length = t ∧ ∀ v ∈ vs, v = -1 ∨ v = 0 ∨ v = 1)
      ∧ ((∃ vs s', Dice.evaluate ⟨t, .Multiply n⟩ s = .ok ((vs, vs), s')
        ∧ vs.length = t ∧ ∀ v ∈ vs, 1 ≤ v ∧ v ≤ (n : Int) * n)
        ∨ Dice.evaluate ⟨t, .Multiply n⟩ s = .error .Overflow) := by
  intro t n s htf hn
  have hctf : (callTimeout s).1 = false := by simp [callTimeout, htf]
  have htfc : ((callTimeout s).2).tf = (fun _ => false) := by
    rw [callTimeout_tf, htf]
  have heval : ∀ dk : DiceType, Dice.evaluate ⟨t, dk⟩ s
      = (rollLoop dk t 0 (callTimeout s).2).map (fun r => ((r.1, r.1), r.2)) := by
    intro dk
    unfold Dice.evaluate
    rw [hctf]
    simp
  refine ⟨?_, ?_, ?_⟩
  · obtain ⟨vs, s', hloop, hlen, hall⟩ :=
      rollLoop_total (.Number n) (fun v => 1 ≤ v ∧ v ≤ (n : Int))
        (fun s0 => ⟨sample 1 (Int.ofNat n) s0, rfl,
          sample_bounds 1 (Int.ofNat n) (one_le_intOfNat n hn) s0, rfl⟩)
        t 0 (callTimeout s).2 htfc
    refine ⟨vs, s', ?_, hlen, hall⟩
    rw [heval]
    simp only [hloop, Except.map]
  · obtain ⟨vs, s', hloop, hlen, hall⟩ :=
      rollLoop_total .Fudge (fun v => v = -1 ∨ v = 0 ∨ v = 1)
        (fun s0 => ⟨sample (-1) 1 s0, rfl, by
          have := sample_bounds (-1) 1 (by norm_num) s0
          omega, rfl⟩)
        t 0 (callTimeout s).2 htfc
    refine ⟨vs, s', ?_, hlen, hall⟩
    rw [heval]
    simp only [hloop, Except.map]
  · have hstep : ∀ s0 : EvalState,
        (∃ r, rollOne (.Multiply n) s0 = .ok r
          ∧ (1 ≤ r.1 ∧ r.1 ≤ (n : Int) * n) ∧ r.2.tf = s0.tf)
        ∨ rollOne (.Multiply n) s0 = .error .Overflow := by
      intro s0
      have hb1 := sample_bounds 1 (Int.ofNat n) (one_le_intOfNat n hn) s0
      have hb2 := sample_bounds 1 (Int.ofNat n) (one_le_intOfNat n hn)
        (sample 1 (Int.ofNat n) s0).2
      by_cases hov : inI64 ((sample 1 (Int.ofNat n) s0).1
          * (sample 1 (Int.ofNat n) (sample 1 (Int.ofNat n) s0).2).1)
      · refine Or.inl ⟨((sample 1 (Int.ofNat n) s0).1
            * (sample 1 (Int.ofNat n) (sample 1 (Int.ofNat n) s0).2).1,
            (sample 1 (Int.ofNat n) (sample 1 (Int.ofNat n) s0).2).2), ?_, ⟨?_, ?_⟩, rfl⟩
        · simp only [rollOne, checkedMul, if_pos hov]
        · dsimp only
          nlinarith [hb1.1, hb2.1]
        · dsimp only
          have hc1 : (sample 1 (Int.ofNat n) s0).1 ≤ (n : Int) := hb1.2
          have hc2 : (sample 1 (Int.ofNat n) (sample 1 (Int.ofNat n) s0).2).1
              ≤ (n : Int) := hb2.2
          nlinarith [hb1.1, hb2.1, hc1, hc2]
      · refine Or.inr ?_
        simp only [rollOne, checkedMul, if_neg hov]
    rcases rollLoop_spec (.Multiply n) (fun v => 1 ≤ v ∧ v ≤ (n : Int) * n)
        hstep t 0 (callTimeout s).2 htfc with ⟨vs, s', hloop, hlen, hall⟩ | hloop
    · refine Or.inl ⟨vs, s', ?_, hlen, hall⟩
      rw [heval]
      simp only [hloop, Except.map]
    · refine Or.inr ?_
      rw [heval]
      simp only [hloop, Except.map]

/-- Witness for C7: three throws of a d6 at a concrete state. -/
theorem C7_evaluator_bounds_witness :
    ∃ vs s', Dice.evaluate ⟨3, .Number 6⟩ exState1 = .ok ((vs, vs), s')
      ∧ vs.length = 3 ∧ ∀ v ∈ vs, 1 ≤ v ∧ v ≤ (6 : Int) :=
  (C7_evaluator_bounds 3 6 exState1 rfl (by decide)).1

/-! ## Claim C8 -/

/-- C8: when more than `k` dice survive filtering, `Selected` evaluation
keeps the `k` largest (`Higher`: the ascending sort minus its first
`len - k` elements) or the `k` smallest (`Lower`: the first `k` of the
ascending sort) — in both cases exactly `k` values; when at most `k`
survive, the surviving rolls pass through unchanged; and whenever
`dice.throws ≤ k`, `Selected(d, sel, k)` evaluates to exactly the same
result as `Unchanged(d)` on the same state. -/
theorem C8_selector :
    (∀ (fd : FilteredDice) (sel : Selector) (k : Nat) (s : EvalState)
      (vs orig : List Int) (s' : EvalState),
      FilteredDice.evaluate fd s = .ok ((vs, orig), s') →
      SelectedDice.evaluate (.Selected fd sel k) s =
        .ok (((if k < vs.length then
                match sel with
                | .Higher => (sortInts vs).drop (vs.length - k)
                | .Lower => (sortInts vs).take k
              else vs), orig), s')
      ∧ (k < vs.length →
        (match sel with
         | .Higher => (sortInts vs).drop (vs.length - k)
         | .Lower => (sortInts vs).take k).length = k))
    ∧ (∀ (fd : FilteredDice) (sel : Selector) (k : Nat) (s : EvalState),
      fd.diceOf.throws ≤ k →
      SelectedDice.evaluate (.Selected fd sel k) s
        = SelectedDice.evaluate (.Unchanged fd) s) := by
  constructor
  · intro fd sel k s vs orig s' h
    constructor
    · simp only [SelectedDice.evaluate, h, Except.map]
      by_cases hk : k < vs.length
      · cases sel <;> simp [hk]
      · simp [hk]
    · intro hk
      cases sel
      · simp only [List.length_drop, sortInts_length]
        omega
      · simp only [List.length_take, sortInts_length]
        omega
  · intro fd sel k s hthrows
    rcases hfd : FilteredDice.evaluate fd s with e | r
    · simp only [SelectedDice.evaluate, hfd, Except.map]
    · obtain ⟨⟨vs, orig⟩, s'⟩ := r
      have hlen : vs.length ≤ fd.diceOf.throws :=
        filteredEvaluate_length fd s vs orig s' hfd
      have hnk : ¬ k < vs.length := by omega
      simp only [SelectedDice.evaluate, hfd, Except.map, hnk, if_false]

/-- Witness for C8: a single d6 throw with `k = 2` passes through. -/
theorem C8_selector_witness :
    SelectedDice.evaluate (.Selected (.Simple ⟨1, .Number 6⟩) .Higher 2) exState1
      = SelectedDice.evaluate (.Unchanged (.Simple ⟨1, .Number 6⟩)) exState1 :=
  C8_selector.2 (.Simple ⟨1, .Number 6⟩) .Higher 2 exState1 (by decide)

/-! ## Claim C9 -/

/-- Exact acceptance behaviour of `parse_u32`: the maximal leading digit run
must be nonempty and denote a value in `[1, u32::MAX]`; leading zeros are
allowed. -/
lemma parseU32_characterization (s : List Char) :
    parseU32 s =
      (if s.takeWhile Char.isDigit ≠ []
          ∧ 1 ≤ digitsVal (s.takeWhile Char.isDigit)
          ∧ digitsVal (s.takeWhile Char.isDigit) ≤ u32Max then
        some (s.dropWhile Char.isDigit, digitsVal (s.takeWhile Char.isDigit))
      else none) := by
  have hdig : pdigit1 s =
      (if s.takeWhile Char.isDigit = [] then none
       else some (s.dropWhile Char.isDigit, s.takeWhile Char.isDigit)) := rfl
  by_cases hds : s.takeWhile Char.isDigit = []
  · simp [parseU32, pverify, pmapRes, hdig, hds]
  · have hall : ∀ c ∈ s.takeWhile Char.isDigit, c.isDigit :=
      fun c hc => List.mem_takeWhile_imp hc
    have hplus : rustParseU32 (s.takeWhile Char.isDigit) =
        (if digitsVal (s.takeWhile Char.isDigit) ≤ u32Max then
          some (digitsVal (s.takeWhile Char.isDigit))
        else none) := by
      unfold rustParseU32
      split
      · rename_i t heq
        have : ('+' : Char).isDigit := hall '+' (by rw [heq]; exact List.mem_cons_self _ _)
        simp at this
      · rename_i hnotplus
        have hl : (s.takeWhile Char.isDigit).all Char.isDigit := by
          rw [List.all_eq_true]
          intro c hc
          exact hall c hc
        simp [hds, hl]
    by_cases h1 : digitsVal (s.takeWhile Char.isDigit) ≤ u32Max
    · by_cases h2 : 1 ≤ digitsVal (s.takeWhile Char.isDigit)
      · simp [parseU32, pverify, pmapRes, hdig, hds, hplus, h1, h2, Nat.lt_of_lt_of_le]
        omega
      · have hv0 : digitsVal (s.takeWhile Char.isDigit) = 0 := by omega
        simp [parseU32, pverify, pmapRes, hdig, hds, hplus, h1, hv0]
    · simp [parseU32, pverify, pmapRes, hdig, hds, hplus, h1]

/-- C9 (amended): `parse_u32` accepts exactly the inputs whose maximal
leading ASCII-digit run is nonempty and denotes — leading zeros allowed — a
value `v` with `1 ≤ v ≤ 4294967295`; it returns `v` together with the input
after that digit run, and fails on every other input. (In particular `"07"`
is accepted with value `7`, although it does not match `[1-9][0-9]*`.) -/
theorem C9_parseU32_exact (s : List Char) :
    parseU32 s =
      (if s.takeWhile Char.isDigit ≠ []
          ∧ 1 ≤ digitsVal (s.takeWhile Char.isDigit)
          ∧ digitsVal (s.takeWhile Char.isDigit) ≤ u32Max then
        some (s.dropWhile Char.isDigit, digitsVal (s.takeWhile Char.isDigit))
      else none) :=
  parseU32_characterization s

/-- Counterexample to C9 as stated: `"07"` is accepted (value `7`, all input
consumed) although it does not begin with a digit sequence matching
`[1-9][0-9]*`. -/
theorem C9_counterexample :
    parseU32 ['0', '7'] = some ([], 7)
    ∧ ∀ (c : Char) (cs : List Char), (['0', '7'] : List Char) = c :: cs →
        ¬('1' ≤ c ∧ c ≤ '9') := by
  constructor
  · rfl
  · intro c cs h
    cases h
    decide

/-! ## Round-trip machinery for C4: combinator computation and inversion -/

section Combinators

variable {α β γ : Type}

lemma ppair_comp (p : P α) (q : P β) (s m rest : List Char) (a : α) (b : β)
    (hp : p s = some (m, a)) (hq : q m = some (rest, b)) :
    ppair p q s = some (rest, (a, b)) := by
  simp [ppair, hp, hq]

lemma ppair_none1 (p : P α) (q : P β) (s : List Char) (hp : p s = none) :
    ppair p q s = none := by
  simp [ppair, hp]

lemma ppair_none2 (p : P α) (q : P β) (s m : List Char) (a : α)
    (hp : p s = some (m, a)) (hq : q m = none) : ppair p q s = none := by
  simp [ppair, hp, hq]

lemma pmap_comp (p : P α) (f : α → β) (s rest : List Char) (a : α)
    (hp : p s = some (rest, a)) : pmap p f s = some (rest, f a) := by
  simp [pmap, hp]

lemma pmap_none (p : P α) (f : α → β) (s : List Char) (hp : p s = none) :
    pmap p f s = none := by
  simp [pmap, hp]

lemma palt2_first (p q : P α) (s : List Char) (r : List Char × α)
    (hp : p s = some r) : palt2 p q s = some r := by
  simp [palt2, hp]

lemma palt2_second (p q : P α) (s : List Char) (hp : p s = none) :
    palt2 p q s = q s := by
  simp [palt2, hp]

lemma pterminated_comp (p : P α) (q : P β) (s m rest : List Char) (a : α) (b : β)
    (hp : p s = some (m, a)) (hq : q m = some (rest, b)) :
    pterminated p q s = some (rest, a) := by
  simp [pterminated, pmap, ppair, hp, hq]

lemma pterminated_none2 (p : P α) (q : P β) (s m : List Char) (a : α)
    (hp : p s = some (m, a)) (hq : q m = none) : pterminated p q s = none := by
  simp [pterminated, pmap, ppair, hp, hq]

lemma pterminated_none1 (p : P α) (q : P β) (s : List Char) (hp : p s = none) :
    pterminated p q s = none := by
  simp [pterminated, pmap, ppair, hp]

lemma ppreceded_comp (p : P α) (q : P β) (s m rest : List Char) (a : α) (b : β)
    (hp : p s = some (m, a)) (hq : q m = some (rest, b)) :
    ppreceded p q s = some (rest, b) := by
  simp [ppreceded, pmap, ppair, hp, hq]

lemma pdelimited_comp (a : P α) (b : P β) (c : P γ)
    (s m1 m2 rest : List Char) (va : α) (vb : β) (vc : γ)
    (ha : a s = some (m1, va)) (hb : b m1 = some (m2, vb))
    (hc : c m2 = some (rest, vc)) : pdelimited a b c s = some (rest, vb) := by
  simp [pdelimited, pmap, ppair, ha, hb, hc]

lemma pdelimited_none2 (a : P α) (b : P β) (c : P γ) (s m1 : List Char) (va : α)
    (ha : a s = some (m1, va)) (hb : b m1 = none) : pdelimited a b c s = none := by
  simp [pdelimited, pmap, ppair, ha, hb]

lemma pverify_comp (p : P α) (f : α → Bool) (s rest : List Char) (a : α)
    (hp : p s = some (rest, a)) (hf : f a = true) :
    pverify p f s = some (rest, a) := by
  simp [pverify, hp, hf]

lemma pmapRes_comp (p : P α) (f : α → Option β) (s rest : List Char) (a : α) (b : β)
    (hp : p s = some (rest, a)) (hf : f a = some b) :
    pmapRes p f s = some (rest, b) := by
  simp [pmapRes, hp, hf]

lemma precognize_comp (p : P α) (s rest : List Char) (a : α)
    (hp : p s = some (rest, a)) :
    precognize p s = some (rest, s.take (s.length - rest.length)) := by
  simp [precognize, hp]

lemma pmap_inv (p : P α) (f : α → β) (s rest : List Char) (b : β)
    (h : pmap p f s = some (rest, b)) :
    ∃ a, p s = some (rest, a) ∧ b = f a := by
  simp only [pmap, Option.map_eq_some'] at h
  obtain ⟨⟨m, a⟩, hp, heq⟩ := h
  cases heq
  exact ⟨a, hp, rfl⟩

lemma ppair_inv (p : P α) (q : P β) (s rest : List Char) (v : α × β)
    (h : ppair p q s = some (rest, v)) :
    ∃ m, p s = some (m, v.1) ∧ q m = some (rest, v.2) := by
  simp only [ppair, Option.bind_eq_some, Option.map_eq_some'] at h
  obtain ⟨⟨m, a⟩, hp, ⟨m2, b⟩, hq, heq⟩ := h
  cases heq
  exact ⟨m, hp, hq⟩

lemma palt2_inv (p q : P α) (s : List Char) (r : List Char × α)
    (h : palt2 p q s = some r) :
    p s = some r ∨ (p s = none ∧ q s = some r) := by
  cases hp : p s with
  | none =>
    right
    simp only [palt2, hp] at h
    exact ⟨rfl, h⟩
  | some r2 =>
    left
    simp only [palt2, hp] at h
    exact h

lemma pverify_inv (p : P α) (f : α → Bool) (s rest : List Char) (a : α)
    (h : pverify p f s = some (rest, a)) :
    p s = some (rest, a) ∧ f a = true := by
  simp only [pverify, Option.bind_eq_some] at h
  obtain ⟨⟨m, a2⟩, hp, hif⟩ := h
  by_cases hf : f a2 = true
  · rw [if_pos hf] at hif
    cases hif
    exact ⟨hp, hf⟩
  · rw [if_neg hf] at hif
    cases hif

lemma pmapRes_inv (p : P α) (f : α → Option β) (s rest : List Char) (b : β)
    (h : pmapRes p f s = some (rest, b)) :
    ∃ a, p s = some (rest, a) ∧ f a = some b := by
  simp only [pmapRes, Option.bind_eq_some, Option.map_eq_some'] at h
  obtain ⟨⟨m, a⟩, hp, b2, hf, heq⟩ := h
  cases heq
  exact ⟨a, hp, hf⟩

lemma pdelimited_inv (a : P α) (b : P β) (c : P γ) (s rest : List Char) (vb : β)
    (h : pdelimited a b c s = some (rest, vb)) :
    ∃ m1 m2 va vc, a s = some (m1, va) ∧ b m1 = some (m2, vb)
      ∧ c m2 = some (rest, vc) := by
  obtain ⟨v, hv, heq⟩ := pmap_inv _ _ _ _ _ h
  obtain ⟨m1, ha, hbc⟩ := ppair_inv _ _ _ _ _ hv
  obtain ⟨m2, hb, hc⟩ := ppair_inv _ _ _ _ _ hbc
  subst heq
  exact ⟨m1, m2, v.1, v.2.2, ha, hb, hc⟩

lemma ppreceded_inv (p : P α) (q : P β) (s rest : List Char) (b : β)
    (h : ppreceded p q s = some (rest, b)) :
    ∃ m a, p s = some (m, a) ∧ q m = some (rest, b) := by
  obtain ⟨v, hv, heq⟩ := pmap_inv _ _ _ _ _ h
  obtain ⟨m, hp, hq⟩ := ppair_inv _ _ _ _ _ hv
  subst heq
  exact ⟨m, v.1, hp, hq⟩

lemma pterminated_inv (p : P α) (q : P β) (s rest : List Char) (a : α)
    (h : pterminated p q s = some (rest, a)) :
    ∃ m b, p s = some (m, a) ∧ q m = some (rest, b) := by
  obtain ⟨v, hv, heq⟩ := pmap_inv _ _ _ _ _ h
  obtain ⟨m, hp, hq⟩ := ppair_inv _ _ _ _ _ hv
  subst heq
  exact ⟨m, v.2, hp, hq⟩

end Combinators

/-! ## Character and digit-string lemmas -/

/-- The head of `s` (if any) satisfies `p`. -/
def headSat (p : Char → Prop) : List Char → Prop
  | [] => True
  | c :: _ => p c

lemma headSat_append_left {p : Char → Prop} (xs rest : List Char) (hxs : xs ≠ [])
    (h : headSat p xs) : headSat p (xs ++ rest) := by
  cases xs with
  | nil => exact absurd rfl hxs
  | cons c t => exact h

lemma dropWhile_of_headSat {p : Char → Bool} (s : List Char)
    (h : headSat (fun c => p c = false) s) : s.dropWhile p = s := by
  cases s with
  | nil => rfl
  | cons c t =>
    simp only [headSat] at h
    simp [List.dropWhile_cons, h]

lemma takeWhile_append_all {p : Char → Bool} :
    ∀ (xs rest : List Char), (∀ c ∈ xs, p c = true) →
      headSat (fun c => p c = false) rest →
      (xs ++ rest).takeWhile p = xs ∧ (xs ++ rest).dropWhile p = rest := by
  intro xs
  induction xs with
  | nil =>
    intro rest _ hrest
    refine ⟨?_, ?_⟩
    · cases rest with
      | nil => rfl
      | cons c t =>
        simp only [headSat] at hrest
        simp [List.takeWhile_cons, hrest]
    · exact dropWhile_of_headSat rest hrest
  | cons x xs ih =>
    intro rest hall hrest
    have hx : p x = true := hall x (List.mem_cons_self _ _)
    have h2 := ih rest (fun c hc => hall c (List.mem_cons_of_mem _ hc)) hrest
    constructor
    · simp [List.takeWhile_cons, hx, h2.1]
    · simp [List.dropWhile_cons, hx, h2.2]

lemma digitChar_isDigit (d : Nat) (h : d < 10) :
    (Char.ofNat (48 + d)).isDigit = true := by
  interval_cases d <;> decide

lemma digitChar_toNat (d : Nat) (h : d < 10) :
    (Char.ofNat (48 + d)).toNat = 48 + d := by
  interval_cases d <;> decide

lemma natChars_ne_nil : ∀ n : Nat, natChars n ≠ [] := by
  intro n
  rw [natChars]
  split
  · simp
  · simp

lemma natChars_all_digits : ∀ n : Nat, ∀ c ∈ natChars n, c.isDigit = true := by
  intro n
  induction n using Nat.strong_induction_on with
  | _ n ih =>
    rw [natChars]
    split
    · rename_i h
      intro c hc
      rw [List.mem_singleton] at hc
      subst hc
      exact digitChar_isDigit n h
    · rename_i h
      intro c hc
      rcases List.mem_append.mp hc with hc | hc
      · exact ih (n / 10) (Nat.div_lt_self (by omega) (by omega)) c hc
      · rw [List.mem_singleton] at hc
        subst hc
        exact digitChar_isDigit (n % 10) (Nat.mod_lt _ (by omega))

lemma digitsVal_append_digit (xs : List Char) (c : Char) :
    digitsVal (xs ++ [c]) = digitsVal xs * 10 + (c.toNat - 48) := by
  simp [digitsVal, List.foldl_append]

lemma digitsVal_natChars : ∀ n : Nat, digitsVal (natChars n) = n := by
  intro n
  induction n using Nat.strong_induction_on with
  | _ n ih =>
    rw [natChars]
    split
    · rename_i h
      simp [digitsVal, digitChar_toNat n h]
    · rename_i h
      rw [digitsVal_append_digit,
        ih (n / 10) (Nat.div_lt_self (by omega) (by omega)),
        digitChar_toNat (n % 10) (Nat.mod_lt _ (by omega))]
      omega

lemma natChars_headSat_digit (n : Nat) :
    headSat (fun c => c.isDigit = true) (natChars n) := by
  cases hc : natChars n with
  | nil => exact absurd hc (natChars_ne_nil n)
  | cons c t =>
    simp only [headSat]
    exact natChars_all_digits n c (by rw [hc]; exact List.mem_cons_self _ _)

/-! ## Tag, whitespace and number print-parse lemmas -/

lemma isPrefixOf_append (t rest : List Char) : t.isPrefixOf (t ++ rest) = true := by
  induction t with
  | nil => simp [List.isPrefixOf]
  | cons c cs ih => simp [List.isPrefixOf, ih]

lemma ptag_prefix (t rest : List Char) : ptag t (t ++ rest) = some (rest, t) := by
  simp [ptag, isPrefixOf_append, List.drop_left]

lemma ptag1_hit (c : Char) (rest : List Char) :
    ptag [c] (c :: rest) = some (rest, [c]) :=
  ptag_prefix [c] rest

lemma ptag1_miss (c c' : Char) (rest : List Char) (h : c' ≠ c) :
    ptag [c] (c' :: rest) = none := by
  have hb : (c == c') = false := by
    rw [beq_eq_false_iff_ne]
    exact fun hc => h hc.symm
  simp [ptag, List.isPrefixOf, hb]

lemma ptag1_nil (c : Char) : ptag [c] [] = none := by
  simp [ptag, List.isPrefixOf]

lemma ptag2_miss1 (a b c : Char) (rest : List Char) (h : c ≠ a) :
    ptag [a, b] (c :: rest) = none := by
  have hb : (a == c) = false := by
    rw [beq_eq_false_iff_ne]
    exact fun hc => h hc.symm
  simp [ptag, List.isPrefixOf, hb]

lemma ptag2_miss2 (a b c : Char) (rest : List Char) (h : c ≠ b) :
    ptag [a, b] (a :: c :: rest) = none := by
  have hb : (b == c) = false := by
    rw [beq_eq_false_iff_ne]
    exact fun hc => h hc.symm
  simp [ptag, List.isPrefixOf, hb]

lemma ptag2_single (a b c : Char) : ptag [a, b] [c] = none := by
  by_cases h : a == c
  · simp [ptag, List.isPrefixOf, h]
  · simp [ptag, List.isPrefixOf, h]

lemma ptag2_nil (a b : Char) : ptag [a, b] [] = none := by
  simp [ptag, List.isPrefixOf]

lemma ptagNoCase1_hit (c c' : Char) (rest : List Char) (h : lowerC c' = lowerC c) :
    ptagNoCase [c] (c' :: rest) = some (rest, [c']) := by
  simp [ptagNoCase, h]

lemma ptagNoCase1_miss (c c' : Char) (rest : List Char) (h : lowerC c' ≠ lowerC c) :
    ptagNoCase [c] (c' :: rest) = none := by
  simp [ptagNoCase, h]

lemma ptagNoCase1_nil (c : Char) : ptagNoCase [c] [] = none := by
  simp [ptagNoCase]

lemma pms0_eq (s : List Char) : pms0 s = some (s.dropWhile spaceB, ()) := rfl

lemma pms0_nodrop (s : List Char) (h : headSat (fun c => spaceB c = false) s) :
    pms0 s = some (s, ()) := by
  rw [pms0_eq, dropWhile_of_headSat s h]

lemma dropWhile_space_cons (s : List Char) :
    List.dropWhile spaceB (' ' :: s) = List.dropWhile spaceB s := by
  simp [List.dropWhile_cons, show spaceB ' ' = true from rfl]

lemma pdigit1_print (ds rest : List Char) (hds : ds ≠ [])
    (hall : ∀ c ∈ ds, c.isDigit = true)
    (hrest : headSat (fun c => c.isDigit = false) rest) :
    pdigit1 (ds ++ rest) = some (rest, ds) := by
  obtain ⟨ht, hd⟩ := takeWhile_append_all ds rest hall hrest
  simp [pdigit1, ht, hd, hds]

lemma parseU32_print (n : Nat) (h1 : 1 ≤ n) (h2 : n ≤ u32Max) (rest : List Char)
    (hrest : headSat (fun c => c.isDigit = false) rest) :
    parseU32 (natChars n ++ rest) = some (rest, n) := by
  obtain ⟨ht, hd⟩ := takeWhile_append_all (natChars n) rest (natChars_all_digits n) hrest
  rw [parseU32_characterization, ht, hd, digitsVal_natChars]
  simp [natChars_ne_nil n, h1, h2]

lemma parseU32_none (s : List Char) (h : headSat (fun c => c.isDigit = false) s) :
    parseU32 s = none := by
  rw [parseU32_characterization]
  have ht : s.takeWhile Char.isDigit = [] := by
    cases s with
    | nil => rfl
    | cons c t =>
      simp only [headSat] at h
      simp [List.takeWhile_cons, h]
  simp [ht]

lemma take_append_sub (xs rest : List Char) :
    (xs ++ rest).take ((xs ++ rest).length - rest.length) = xs := by
  have hl : (xs ++ rest).length - rest.length = xs.length := by
    simp [List.length_append]
  rw [hl, List.take_left]

lemma rustParseI64_digits (ds : List Char) (hne : ds ≠ [])
    (hall : ∀ c ∈ ds, c.isDigit = true) (hv : (digitsVal ds : Int) ≤ i64Max) :
    rustParseI64 ds = some (digitsVal ds) := by
  cases ds with
  | nil => exact absurd rfl hne
  | cons c t =>
    have hc : c.isDigit = true := hall c (List.mem_cons_self _ _)
    have hcp : c ≠ '+' := by
      intro hh
      rw [hh] at hc
      simp at hc
    have hcm : c ≠ '-' := by
      intro hh
      rw [hh] at hc
      simp at hc
    unfold rustParseI64
    split
    · rename_i t2 heq
      rw [List.cons.injEq] at heq
      exact absurd heq.1 hcp
    · rename_i t2 heq
      rw [List.cons.injEq] at heq
      exact absurd heq.1 hcm
    · have hl : (c :: t).all Char.isDigit = true := by
        rw [List.all_eq_true]
        exact hall
      simp [hl, hv]

lemma rustParseI64_neg (ds : List Char) (hne : ds ≠ [])
    (hall : ∀ c ∈ ds, c.isDigit = true) (hv : (digitsVal ds : Int) ≤ -i64Min) :
    rustParseI64 ('-' :: ds) = some (-(digitsVal ds : Int)) := by
  unfold rustParseI64
  split
  · rename_i t heq
    simp at heq
  · rename_i t heq
    rw [List.cons.injEq] at heq
    obtain ⟨-, rfl⟩ := heq
    have hl : ds.all Char.isDigit = true := by
      rw [List.all_eq_true]
      exact hall
    simp [hne, hl, hv]
  · rename_i hn1 hn2
    exact absurd rfl (hn2 ds)

lemma parseI64_print (i : Int) (hi : inI64 i) (rest : List Char)
    (hrest : headSat (fun c => c.isDigit = false) rest) :
    parseI64 (intChars i ++ rest) = some (rest, i) := by
  by_cases hneg : i < 0
  · have hich : intChars i = '-' :: natChars (-i).toNat := by
      simp [intChars, hneg]
    rw [hich]
    have hds : natChars (-i).toNat ≠ [] := natChars_ne_nil _
    have halt : palt2 (ptag ['+']) (palt2 (ptag ['-']) (psuccess []))
        (('-' :: natChars (-i).toNat) ++ rest)
        = some (natChars (-i).toNat ++ rest, ['-']) := by
      rw [List.cons_append]
      rw [palt2_second _ _ _ (ptag1_miss '+' '-' _ (by decide))]
      exact palt2_first _ _ _ _ (ptag1_hit '-' _)
    have hdig : pdigit1 (natChars (-i).toNat ++ rest)
        = some (rest, natChars (-i).toNat) :=
      pdigit1_print _ _ hds (natChars_all_digits _) hrest
    have hdig2 : pdigit1 (('-' :: natChars (-i).toNat) ++ rest).tail
        = some (rest, natChars (-i).toNat) := hdig
    have hp := ppair_comp _ _ (('-' :: natChars (-i).toNat) ++ rest) _ _ _ _
      (by rw [List.cons_append] at halt ⊢; exact halt) hdig
    have hr := precognize_comp _ _ _ _ hp
    rw [take_append_sub ('-' :: natChars (-i).toNat) rest] at hr
    have hval : rustParseI64 ('-' :: natChars (-i).toNat)
        = some (-(digitsVal (natChars (-i).toNat) : Int)) := by
      refine rustParseI64_neg _ hds (natChars_all_digits _) ?_
      rw [digitsVal_natChars]
      have hb := hi
      unfold inI64 i64Min i64Max at hb
      unfold i64Min
      omega
    have : (-(digitsVal (natChars (-i).toNat) : Int)) = i := by
      rw [digitsVal_natChars]
      omega
    rw [this] at hval
    exact pmapRes_comp _ _ _ _ _ _ hr hval
  · have h0 : 0 ≤ i := by omega
    have hich : intChars i = natChars i.toNat := by
      simp [intChars, hneg]
    rw [hich]
    have hds : natChars i.toNat ≠ [] := natChars_ne_nil _
    have hhead : headSat (fun c => c.isDigit = true) (natChars i.toNat ++ rest) :=
      headSat_append_left _ _ hds (natChars_headSat_digit _)
    have halt : palt2 (ptag ['+']) (palt2 (ptag ['-']) (psuccess []))
        (natChars i.toNat ++ rest)
        = some (natChars i.toNat ++ rest, []) := by
      cases hc : natChars i.toNat ++ rest with
      | nil => exact absurd hc (by simp [hds])
      | cons c t =>
        rw [hc] at hhead
        simp only [headSat] at hhead
        have hcp : c ≠ '+' := by
          intro hh
          rw [hh] at hhead
          simp at hhead
        have hcm : c ≠ '-' := by
          intro hh
          rw [hh] at hhead
          simp at hhead
        rw [palt2_second _ _ _ (ptag1_miss '+' c _ hcp),
          palt2_second _ _ _ (ptag1_miss '-' c _ hcm)]
        rfl
    have hdig : pdigit1 (natChars i.toNat ++ rest) = some (rest, natChars i.toNat) :=
      pdigit1_print _ _ hds (natChars_all_digits _) hrest
    have hp := ppair_comp _ _ _ _ _ _ _ halt hdig
    have hr := precognize_comp _ _ _ _ hp
    rw [take_append_sub (natChars i.toNat) rest] at hr
    have hval : rustParseI64 (natChars i.toNat)
        = some ((digitsVal (natChars i.toNat) : Nat) : Int) := by
      refine rustParseI64_digits _ hds (natChars_all_digits _) ?_
      rw [digitsVal_natChars]
      have hb := hi
      unfold inI64 i64Min i64Max at hb
      unfold i64Max
      omega
    have : ((digitsVal (natChars i.toNat) : Nat) : Int) = i := by
      rw [digitsVal_natChars]
      omega
    rw [this] at hval
    exact pmapRes_comp _ _ _ _ _ _ hr hval

/-! ## Well-formedness: the numeric ranges the parser guarantees -/

def WFn (n : Nat) : Prop := 1 ≤ n ∧ n ≤ u32Max

def WFdiceType : DiceType → Prop
  | .Number n => WFn n
  | .Fudge => True
  | .Multiply n => WFn n

def WFdice (d : Dice) : Prop := WFn d.throws ∧ WFdiceType d.dice

def WFfd : FilteredDice → Prop
  | .Simple d => WFdice d
  | .Filtered d _ t => WFdice d ∧ WFn t

def WFsd : SelectedDice → Prop
  | .Unchanged fd => WFfd fd
  | .Selected fd _ k => WFfd fd ∧ WFn k

/-! ## Character class facts -/

lemma lowerC_of_isDigit (c : Char) (h : c.isDigit = true) : lowerC c = c := by
  unfold lowerC
  rw [if_neg]
  rintro ⟨h1, h2⟩
  simp only [Char.isDigit, Bool.and_eq_true, decide_eq_true_eq] at h
  rw [Char.le_def] at h1
  have h2v := h.2
  simp [UInt32.le_def, BitVec.le_def] at h1 h2v
  omega

lemma spaceB_of_isDigit (c : Char) (h : c.isDigit = true) : spaceB c = false := by
  cases hs : spaceB c
  · rfl
  · exfalso
    have hcases : c = ' ' ∨ c = '\t' ∨ c = '\r' ∨ c = '\n' := by
      by_contra hc
      push_neg at hc
      simp [spaceB, hc.1, hc.2.1, hc.2.2.1, hc.2.2.2] at hs
    rcases hcases with rfl | rfl | rfl | rfl <;> simp at h

lemma ne_of_isDigit (c d : Char) (hc : c.isDigit = true) (hd : d.isDigit = false) :
    c ≠ d := by
  intro h
  rw [h, hd] at hc
  cases hc

/-! ## Rest contexts -/

/-- A rest that may follow a complete rendered atom: its head is not a digit
and its first non-space character cannot extend a dice throw or start an
operator-free continuation. -/
def AtomRest (rest : List Char) : Prop :=
  headSat (fun c => c.isDigit = false) rest
  ∧ headSat
      (fun c => lowerC c ∉ (['x', '>', '<', '!', 'h', 'k', 'l', 'd', 'w'] : List Char))
      (rest.dropWhile spaceB)

/-- A rest that may follow a complete rendered term: nothing, a closing
parenthesis, or a closing brace. -/
def stopRest (rest : List Char) : Prop :=
  rest = [] ∨ (∃ t, rest = rparen :: t) ∨ (∃ t, rest = rbrace :: t)

lemma stopRest_atomRest (rest : List Char) (h : stopRest rest) : AtomRest rest := by
  rcases h with rfl | ⟨t, rfl⟩ | ⟨t, rfl⟩
  · exact ⟨trivial, trivial⟩
  · refine ⟨?_, ?_⟩
    · simp only [headSat]
      decide
    · rw [dropWhile_of_headSat]
      · simp only [headSat]
        decide
      · simp only [headSat]
        decide
  · refine ⟨?_, ?_⟩
    · simp only [headSat]
      decide
    · rw [dropWhile_of_headSat]
      · simp only [headSat]
        decide
      · simp only [headSat]
        decide

lemma atomRest_not_filter (rest : List Char) (h : AtomRest rest) :
    headSat (fun c => c ∉ (['>', '<', '!'] : List Char)) (rest.dropWhile spaceB) := by
  cases hc : rest.dropWhile spaceB with
  | nil => trivial
  | cons c t =>
    have h2 := h.2
    rw [hc] at h2
    simp only [headSat] at h2 ⊢
    intro hmem
    apply h2
    rcases (by simpa using hmem : c = '>' ∨ c = '<' ∨ c = '!') with rfl | rfl | rfl <;> decide

lemma atomRest_not_x (rest : List Char) (h : AtomRest rest) :
    headSat (fun c => lowerC c ≠ 'x') (rest.dropWhile spaceB) := by
  cases hc : rest.dropWhile spaceB with
  | nil => trivial
  | cons c t =>
    have h2 := h.2
    rw [hc] at h2
    simp only [headSat] at h2 ⊢
    intro hx
    exact h2 (by rw [hx]; decide)

lemma atomRest_not_selector (rest : List Char) (h : AtomRest rest) :
    headSat (fun c => lowerC c ∉ (['h', 'k', 'l'] : List Char)) (rest.dropWhile spaceB) := by
  cases hc : rest.dropWhile spaceB with
  | nil => trivial
  | cons c t =>
    have h2 := h.2
    rw [hc] at h2
    simp only [headSat] at h2 ⊢
    intro hmem
    apply h2
    rcases (by simpa using hmem : lowerC c = 'h' ∨ lowerC c = 'k' ∨ lowerC c = 'l')
      with hx | hx | hx <;> simp [hx]

lemma atomRest_not_dw (rest : List Char) (h : AtomRest rest) :
    headSat (fun c => lowerC c ≠ 'd' ∧ lowerC c ≠ 'w') (rest.dropWhile spaceB) := by
  cases hc : rest.dropWhile spaceB with
  | nil => trivial
  | cons c t =>
    have h2 := h.2
    rw [hc] at h2
    simp only [headSat] at h2 ⊢
    constructor
    · intro hx
      exact h2 (by rw [hx]; decide)
    · intro hx
      exact h2 (by rw [hx]; decide)

lemma headSat_imp {p q : Char → Prop} (h : ∀ c, p c → q c) {s : List Char}
    (hs : headSat p s) : headSat q s := by
  cases s with
  | nil => trivial
  | cons c t => exact h c hs

lemma natChars_append_digit_head (n : Nat) (rest : List Char) :
    headSat (fun c => c.isDigit = true) (natChars n ++ rest) :=
  headSat_append_left _ _ (natChars_ne_nil n) (natChars_headSat_digit n)

lemma natChars_append_nospace_head (n : Nat) (rest : List Char) :
    headSat (fun c => spaceB c = false) (natChars n ++ rest) :=
  headSat_imp (fun c hc => spaceB_of_isDigit c hc) (natChars_append_digit_head n rest)

/-! ## Dice chain print-parse lemmas -/

lemma parseDiceDigit_hit (rest : List Char) :
    parseDiceDigit ('d' :: rest) = some (rest, ['d']) :=
  palt2_first _ _ _ _ (ptagNoCase1_hit 'd' 'd' rest rfl)

lemma parseDiceDigit_none (s : List Char)
    (h : headSat (fun c => lowerC c ≠ 'd' ∧ lowerC c ≠ 'w') s) :
    parseDiceDigit s = none := by
  cases s with
  | nil =>
    unfold parseDiceDigit
    rw [palt2_second _ _ _ (ptagNoCase1_nil 'd')]
    exact ptagNoCase1_nil 'w'
  | cons c t =>
    simp only [headSat] at h
    unfold parseDiceDigit
    rw [palt2_second _ _ _ (ptagNoCase1_miss 'd' c t
      (by rw [show lowerC 'd' = 'd' from by decide]; exact h.1))]
    exact ptagNoCase1_miss 'w' c t
      (by rw [show lowerC 'w' = 'w' from by decide]; exact h.2)

lemma parseDiceType_number (n : Nat) (h1 : 1 ≤ n) (h2 : n ≤ u32Max)
    (rest : List Char) (hd : headSat (fun c => c.isDigit = false) rest)
    (hx : headSat (fun c => lowerC c ≠ 'x') (rest.dropWhile spaceB)) :
    parseDiceType (natChars n ++ rest) = some (rest, .Number n) := by
  have hu := parseU32_print n h1 h2 rest hd
  have htag : ptagNoCase ['x'] (rest.dropWhile spaceB) = none := by
    cases hcase : rest.dropWhile spaceB with
    | nil => exact ptagNoCase1_nil 'x'
    | cons c t =>
      rw [hcase] at hx
      simp only [headSat] at hx
      exact ptagNoCase1_miss 'x' c t
        (by rw [show lowerC 'x' = 'x' from by decide]; exact hx)
  have hterm : pterminated pms0 (ptagNoCase ['x']) rest = none :=
    pterminated_none2 _ _ _ _ _ (pms0_eq rest) htag
  have hmul : pterminated parseU32 (pterminated pms0 (ptagNoCase ['x']))
      (natChars n ++ rest) = none :=
    pterminated_none2 _ _ _ _ _ hu hterm
  unfold parseDiceType
  rw [palt2_second _ _ _ (pmap_none _ _ _ hmul)]
  exact palt2_first _ _ _ _ (pmap_comp _ _ _ _ _ hu)

lemma parseDiceType_fudge (rest : List Char) :
    parseDiceType ('F' :: rest) = some (rest, .Fudge) := by
  have hu : parseU32 ('F' :: rest) = none :=
    parseU32_none _ (by simp only [headSat]; decide)
  unfold parseDiceType
  rw [palt2_second _ _ _ (pmap_none _ _ _ (pterminated_none1 _ _ _ hu))]
  rw [palt2_second _ _ _ (pmap_none _ _ _ hu)]
  exact palt2_first _ _ _ _
    (pmap_comp _ _ _ _ _ (ptagNoCase1_hit 'f' 'F' rest (by decide)))

lemma parseDiceType_multiply (n : Nat) (h1 : 1 ≤ n) (h2 : n ≤ u32Max)
    (rest : List Char) :
    parseDiceType (natChars n ++ 'x' :: rest) = some (rest, .Multiply n) := by
  have hu := parseU32_print n h1 h2 ('x' :: rest) (by simp only [headSat]; decide)
  have htag : ptagNoCase ['x'] ('x' :: rest) = some (rest, ['x']) :=
    ptagNoCase1_hit 'x' 'x' rest rfl
  have hms : pms0 ('x' :: rest) = some ('x' :: rest, ()) :=
    pms0_nodrop _ (by simp only [headSat]; decide)
  have hterm : pterminated pms0 (ptagNoCase ['x']) ('x' :: rest) = some (rest, ()) :=
    pterminated_comp _ _ _ _ _ _ _ hms htag
  have hmul := pterminated_comp _ _ _ _ _ _ _ hu hterm
  unfold parseDiceType
  exact palt2_first _ _ _ _ (pmap_comp _ _ _ _ _ hmul)

lemma parseDice_print (d : Dice) (hwf : WFdice d) (rest : List Char)
    (hd : headSat (fun c => c.isDigit = false) rest)
    (hx : headSat (fun c => lowerC c ≠ 'x') (rest.dropWhile spaceB)) :
    parseDice (renderDice d ++ rest) = some (rest, d) := by
  obtain ⟨throws, k⟩ := d
  obtain ⟨⟨ht1, ht2⟩, hk⟩ := hwf
  have hshape : renderDice ⟨throws, k⟩ ++ rest
      = natChars throws ++ (renderDiceType k ++ rest) := by
    simp [renderDice, List.append_assoc]
  rw [hshape]
  have hkhead : headSat (fun c => c.isDigit = false ∧ spaceB c = false)
      (renderDiceType k ++ rest) := by
    cases k <;> simp only [renderDiceType, List.cons_append, headSat] <;> decide
  have hu32 : palt2 parseU32 (psuccess 1)
      (natChars throws ++ (renderDiceType k ++ rest))
      = some (renderDiceType k ++ rest, throws) :=
    palt2_first _ _ _ _
      (parseU32_print throws ht1 ht2 _ (headSat_imp (fun c hc => hc.1) hkhead))
  have hms1 : pms0 (renderDiceType k ++ rest)
      = some (renderDiceType k ++ rest, ()) :=
    pms0_nodrop _ (headSat_imp (fun c hc => hc.2) hkhead)
  have hleft := pterminated_comp _ _ _ _ _ _ _ hu32 hms1
  have hright : ppreceded parseDiceDigit (ppreceded pms0 parseDiceType)
      (renderDiceType k ++ rest) = some (rest, k) := by
    cases k with
    | Number n =>
      have hdd : parseDiceDigit (renderDiceType (.Number n) ++ rest)
          = some (natChars n ++ rest, ['d']) := parseDiceDigit_hit _
      have hms2 : pms0 (natChars n ++ rest) = some (natChars n ++ rest, ()) :=
        pms0_nodrop _ (natChars_append_nospace_head n rest)
      have hdt := parseDiceType_number n hk.1 hk.2 rest hd hx
      exact ppreceded_comp _ _ _ _ _ _ _ hdd
        (ppreceded_comp _ _ _ _ _ _ _ hms2 hdt)
    | Fudge =>
      have hdd : parseDiceDigit (renderDiceType .Fudge ++ rest)
          = some ('F' :: rest, ['d']) := parseDiceDigit_hit _
      have hms2 : pms0 ('F' :: rest) = some ('F' :: rest, ()) :=
        pms0_nodrop _ (by simp only [headSat]; decide)
      have hdt := parseDiceType_fudge rest
      exact ppreceded_comp _ _ _ _ _ _ _ hdd
        (ppreceded_comp _ _ _ _ _ _ _ hms2 hdt)
    | Multiply n =>
      have hshape2 : renderDiceType (.Multiply n) ++ rest
          = 'd' :: (natChars n ++ 'x' :: rest) := by
        simp [renderDiceType, List.append_assoc]
      rw [hshape2]
      have hdd : parseDiceDigit ('d' :: (natChars n ++ 'x' :: rest))
          = some (natChars n ++ 'x' :: rest, ['d']) := parseDiceDigit_hit _
      have hms2 : pms0 (natChars n ++ 'x' :: rest)
          = some (natChars n ++ 'x' :: rest, ()) :=
        pms0_nodrop _ (natChars_append_nospace_head n _)
      have hdt := parseDiceType_multiply n hk.1 hk.2 rest
      exact ppreceded_comp _ _ _ _ _ _ _ hdd
        (ppreceded_comp _ _ _ _ _ _ _ hms2 hdt)
  have hp := ppair_comp _ _ _ _ _ _ _ hleft hright
  exact pmap_comp _ _ _ _ _ hp

/-! ## Filter and selector print-parse lemmas -/

lemma ptag2_hit (a b : Char) (rest : List Char) :
    ptag [a, b] (a :: b :: rest) = some (rest, [a, b]) :=
  ptag_prefix [a, b] rest

lemma parseFilter_print (f : DFilter) (rest : List Char)
    (hne : headSat (fun c => c ≠ '=') rest) :
    parseFilter (renderFilter f ++ rest) = some (rest, f) := by
  cases f
  case Bigger =>
    have h1 : ptag ['>', '='] ('>' :: rest) = none := by
      cases rest with
      | nil => exact ptag2_single '>' '=' '>'
      | cons c t =>
        simp only [headSat] at hne
        exact ptag2_miss2 '>' '=' c t hne
    unfold parseFilter
    simp only [renderFilter, List.cons_append, List.nil_append]
    rw [palt2_second _ _ _ (pmap_none _ _ _ h1)]
    exact palt2_first _ _ _ _ (pmap_comp _ _ _ _ _ (ptag1_hit '>' rest))
  case BiggerEq =>
    unfold parseFilter
    simp only [renderFilter, List.cons_append, List.nil_append]
    exact palt2_first _ _ _ _ (pmap_comp _ _ _ _ _ (ptag2_hit '>' '=' rest))
  case Smaller =>
    have h1 : ptag ['<', '='] ('<' :: rest) = none := by
      cases rest with
      | nil => exact ptag2_single '<' '=' '<'
      | cons c t =>
        simp only [headSat] at hne
        exact ptag2_miss2 '<' '=' c t hne
    unfold parseFilter
    simp only [renderFilter, List.cons_append, List.nil_append]
    rw [palt2_second _ _ _ (pmap_none _ _ _ (ptag2_miss1 '>' '=' '<' rest (by decide)))]
    rw [palt2_second _ _ _ (pmap_none _ _ _ (ptag1_miss '>' '<' rest (by decide)))]
    rw [palt2_second _ _ _ (pmap_none _ _ _ h1)]
    exact palt2_first _ _ _ _ (pmap_comp _ _ _ _ _ (ptag1_hit '<' rest))
  case SmallerEq =>
    unfold parseFilter
    simp only [renderFilter, List.cons_append, List.nil_append]
    rw [palt2_second _ _ _ (pmap_none _ _ _ (ptag2_miss1 '>' '=' '<' _ (by decide)))]
    rw [palt2_second _ _ _ (pmap_none _ _ _ (ptag1_miss '>' '<' _ (by decide)))]
    exact palt2_first _ _ _ _ (pmap_comp _ _ _ _ _ (ptag2_hit '<' '=' rest))
  case NotEq =>
    unfold parseFilter
    simp only [renderFilter, List.cons_append, List.nil_append]
    rw [palt2_second _ _ _ (pmap_none _ _ _ (ptag2_miss1 '>' '=' '!' _ (by decide)))]
    rw [palt2_second _ _ _ (pmap_none _ _ _ (ptag1_miss '>' '!' _ (by decide)))]
    rw [palt2_second _ _ _ (pmap_none _ _ _ (ptag2_miss1 '<' '=' '!' _ (by decide)))]
    rw [palt2_second _ _ _ (pmap_none _ _ _ (ptag1_miss '<' '!' _ (by decide)))]
    exact pmap_comp _ _ _ _ _ (ptag2_hit '!' '=' rest)

lemma parseFilter_none (s : List Char)
    (h : headSat (fun c => c ∉ (['>', '<', '!'] : List Char)) s) :
    parseFilter s = none := by
  cases s with
  | nil =>
    unfold parseFilter
    rw [palt2_second _ _ _ (pmap_none _ _ _ (ptag2_nil '>' '='))]
    rw [palt2_second _ _ _ (pmap_none _ _ _ (ptag1_nil '>'))]
    rw [palt2_second _ _ _ (pmap_none _ _ _ (ptag2_nil '<' '='))]
    rw [palt2_second _ _ _ (pmap_none _ _ _ (ptag1_nil '<'))]
    exact pmap_none _ _ _ (ptag2_nil '!' '=')
  | cons c t =>
    simp only [headSat] at h
    have hgt : c ≠ '>' := fun hh => h (by rw [hh]; simp)
    have hlt : c ≠ '<' := fun hh => h (by rw [hh]; simp)
    have hex : c ≠ '!' := fun hh => h (by rw [hh]; simp)
    unfold parseFilter
    rw [palt2_second _ _ _ (pmap_none _ _ _ (ptag2_miss1 '>' '=' c t hgt))]
    rw [palt2_second _ _ _ (pmap_none _ _ _ (ptag1_miss '>' c t hgt))]
    rw [palt2_second _ _ _ (pmap_none _ _ _ (ptag2_miss1 '<' '=' c t hlt))]
    rw [palt2_second _ _ _ (pmap_none _ _ _ (ptag1_miss '<' c t hlt))]
    exact pmap_none _ _ _ (ptag2_miss1 '!' '=' c t hex)

lemma parseFilteredDice_print (fd : FilteredDice) (hwf : WFfd fd) (rest : List Char)
    (hd : headSat (fun c => c.isDigit = false) rest)
    (hx : headSat (fun c => lowerC c ≠ 'x') (rest.dropWhile spaceB))
    (hfil : headSat (fun c => c ∉ (['>', '<', '!'] : List Char)) (rest.dropWhile spaceB)) :
    parseFilteredDice (renderFilteredDice fd ++ rest) = some (rest, fd) := by
  cases fd with
  | Simple d =>
    have hdice := parseDice_print d hwf rest hd hx
    have hfail : pdelimited pms0 parseFilter pms0 rest = none :=
      pdelimited_none2 _ _ _ _ _ _ (pms0_eq rest) (parseFilter_none _ hfil)
    have hbranch : ppair parseDice
        (ppair (pdelimited pms0 parseFilter pms0) parseU32)
        (renderFilteredDice (.Simple d) ++ rest) = none :=
      ppair_none2 _ _ _ _ _ hdice (ppair_none1 _ _ _ hfail)
    unfold parseFilteredDice
    rw [palt2_second _ _ _ (pmap_none _ _ _ hbranch)]
    exact pmap_comp _ _ _ _ _ hdice
  | Filtered d f t =>
    obtain ⟨hwd, hwt⟩ := hwf
    have hshape : renderFilteredDice (.Filtered d f t) ++ rest
        = renderDice d ++ (renderFilter f ++ (natChars t ++ rest)) := by
      simp [renderFilteredDice, List.append_assoc]
    rw [hshape]
    have hfhead : headSat (fun c => c.isDigit = false ∧ spaceB c = false)
        (renderFilter f ++ (natChars t ++ rest)) := by
      cases f <;> simp only [renderFilter, List.cons_append, headSat] <;> decide
    have hnospace := headSat_imp (fun c (hc : c.isDigit = false ∧ spaceB c = false)
      => hc.2) hfhead
    have hxcond : headSat (fun c => lowerC c ≠ 'x')
        ((renderFilter f ++ (natChars t ++ rest)).dropWhile spaceB) := by
      rw [dropWhile_of_headSat _ hnospace]
      cases f <;> simp only [renderFilter, List.cons_append, headSat] <;> decide
    have hdice := parseDice_print d hwd _
      (headSat_imp (fun c hc => hc.1) hfhead) hxcond
    have hfilp := parseFilter_print f (natChars t ++ rest)
      (headSat_imp (fun c hc => ne_of_isDigit c '=' hc (by decide))
        (natChars_append_digit_head t rest))
    have hmsA : pms0 (renderFilter f ++ (natChars t ++ rest))
        = some (renderFilter f ++ (natChars t ++ rest), ()) :=
      pms0_nodrop _ hnospace
    have hmsB : pms0 (natChars t ++ rest) = some (natChars t ++ rest, ()) :=
      pms0_nodrop _ (natChars_append_nospace_head t rest)
    have hdel := pdelimited_comp _ _ _ _ _ _ _ _ _ _ hmsA hfilp hmsB
    have hu := parseU32_print t hwt.1 hwt.2 rest hd
    have hp := ppair_comp _ _ _ _ _ _ _ hdice
      (ppair_comp _ _ _ _ _ _ _ hdel hu)
    unfold parseFilteredDice
    exact palt2_first _ _ _ _ (pmap_comp _ _ _ _ _ hp)

lemma parseSelector_print (sel : Selector) (rest : List Char) :
    parseSelector (renderSelector sel ++ rest) = some (rest, sel) := by
  cases sel
  case Higher =>
    unfold parseSelector
    simp only [renderSelector, List.cons_append, List.nil_append]
    exact palt2_first _ _ _ _ (pmap_comp _ _ _ _ _
      (palt2_first _ _ _ _ (ptagNoCase1_hit 'h' 'h' rest rfl)))
  case Lower =>
    have hh : palt2 (ptagNoCase ['h']) (ptagNoCase ['k']) ('l' :: rest) = none := by
      rw [palt2_second _ _ _ (ptagNoCase1_miss 'h' 'l' rest (by decide))]
      exact ptagNoCase1_miss 'k' 'l' rest (by decide)
    unfold parseSelector
    simp only [renderSelector, List.cons_append, List.nil_append]
    rw [palt2_second _ _ _ (pmap_none _ _ _ hh)]
    exact pmap_comp _ _ _ _ _ (ptagNoCase1_hit 'l' 'l' rest rfl)

lemma parseSelector_none (s : List Char)
    (h : headSat (fun c => lowerC c ∉ (['h', 'k', 'l'] : List Char)) s) :
    parseSelector s = none := by
  cases s with
  | nil =>
    have hh : palt2 (ptagNoCase ['h']) (ptagNoCase ['k']) [] = none := by
      rw [palt2_second _ _ _ (ptagNoCase1_nil 'h')]
      exact ptagNoCase1_nil 'k'
    unfold parseSelector
    rw [palt2_second _ _ _ (pmap_none _ _ _ hh)]
    exact pmap_none _ _ _ (ptagNoCase1_nil 'l')
  | cons c t =>
    simp only [headSat] at h
    have hhh : lowerC c ≠ 'h' := fun hx => h (by rw [hx]; simp)
    have hkk : lowerC c ≠ 'k' := fun hx => h (by rw [hx]; simp)
    have hll : lowerC c ≠ 'l' := fun hx => h (by rw [hx]; simp)
    have hh : palt2 (ptagNoCase ['h']) (ptagNoCase ['k']) (c :: t) = none := by
      rw [palt2_second _ _ _ (ptagNoCase1_miss 'h' c t
        (by rw [show lowerC 'h' = 'h' from by decide]; exact hhh))]
      exact ptagNoCase1_miss 'k' c t
        (by rw [show lowerC 'k' = 'k' from by decide]; exact hkk)
    unfold parseSelector
    rw [palt2_second _ _ _ (pmap_none _ _ _ hh)]
    exact pmap_none _ _ _ (ptagNoCase1_miss 'l' c t
      (by rw [show lowerC 'l' = 'l' from by decide]; exact hll))

lemma parseSelectedDice_print (sd : SelectedDice) (hwf : WFsd sd) (rest : List Char)
    (hAtom : AtomRest rest) :
    parseSelectedDice (renderSelectedDice sd ++ rest) = some (rest, sd) := by
  cases sd with
  | Unchanged fd =>
    have hfd := parseFilteredDice_print fd hwf rest hAtom.1
      (atomRest_not_x rest hAtom) (atomRest_not_filter rest hAtom)
    have hself : pdelimited pms0 parseSelector pms0 rest = none :=
      pdelimited_none2 _ _ _ _ _ _ (pms0_eq rest)
        (parseSelector_none _ (atomRest_not_selector rest hAtom))
    have hbranch : ppair parseFilteredDice
        (ppair (pdelimited pms0 parseSelector pms0) parseU32)
        (renderSelectedDice (.Unchanged fd) ++ rest) = none :=
      ppair_none2 _ _ _ _ _ hfd (ppair_none1 _ _ _ hself)
    unfold parseSelectedDice
    rw [palt2_second _ _ _ (pmap_none _ _ _ hbranch)]
    exact pmap_comp _ _ _ _ _ hfd
  | Selected fd sel k =>
    obtain ⟨hwfd, hwk⟩ := hwf
    have hshape : renderSelectedDice (.Selected fd sel k) ++ rest
        = renderFilteredDice fd ++ (renderSelector sel ++ (natChars k ++ rest)) := by
      simp [renderSelectedDice, List.append_assoc]
    rw [hshape]
    have hshead : headSat (fun c => c.isDigit = false ∧ spaceB c = false
        ∧ lowerC c ≠ 'x' ∧ c ∉ (['>', '<', '!'] : List Char))
        (renderSelector sel ++ (natChars k ++ rest)) := by
      cases sel <;> simp only [renderSelector, List.cons_append, headSat] <;> decide
    have hnospace := headSat_imp (fun c (hc : _ ∧ _ ∧ _ ∧ _) => hc.2.1) hshead
    have hdrop : (renderSelector sel ++ (natChars k ++ rest)).dropWhile spaceB
        = renderSelector sel ++ (natChars k ++ rest) :=
      dropWhile_of_headSat _ hnospace
    have hfd := parseFilteredDice_print fd hwfd _
      (headSat_imp (fun c hc => hc.1) hshead)
      (by rw [hdrop]; exact headSat_imp (fun c hc => hc.2.2.1) hshead)
      (by rw [hdrop]; exact headSat_imp (fun c hc => hc.2.2.2) hshead)
    have hsel := parseSelector_print sel (natChars k ++ rest)
    have hmsA : pms0 (renderSelector sel ++ (natChars k ++ rest))
        = some (renderSelector sel ++ (natChars k ++ rest), ()) :=
      pms0_nodrop _ hnospace
    have hmsB : pms0 (natChars k ++ rest) = some (natChars k ++ rest, ()) :=
      pms0_nodrop _ (natChars_append_nospace_head k rest)
    have hdel := pdelimited_comp _ _ _ _ _ _ _ _ _ _ hmsA hsel hmsB
    have hu := parseU32_print k hwk.1 hwk.2 rest hAtom.1
    have hp := ppair_comp _ _ _ _ _ _ _ hfd
      (ppair_comp _ _ _ _ _ _ _ hdel hu)
    unfold parseSelectedDice
    exact palt2_first _ _ _ _ (pmap_comp _ _ _ _ _ hp)

/-! ## Terms in the parser's range -/

/-- Characterisation of `parse_term` outputs: numeric fields have the ranges
`parse_u32`/`parse_i64` guarantee, and the left child of every `Calculation`
is itself not a `Calculation` (the grammar's right-associativity). -/
inductive PT : Term → Prop where
  | const (i : Int) : inI64 i → PT (.Constant i)
  | dice (d : SelectedDice) : WFsd d → PT (.DiceThrow d)
  | calcNode (l : Term) (op : Operation) (r : Term) :
      PT l → notCalc l → PT r → PT (.Calculation l op r)
  | sub (t : Term) : PT t → PT (.SubTerm t)

/-- Node count of a term. -/
def sizeT : Term → Nat
  | .Constant _ => 1
  | .DiceThrow _ => 1
  | .Calculation l _ r => sizeT l + sizeT r + 1
  | .SubTerm t => sizeT t + 1

lemma sizeT_pos (t : Term) : 1 ≤ sizeT t := by
  cases t <;> simp [sizeT]

/-! ## Render shape lemmas -/

lemma intChars_ne_nil (i : Int) : intChars i ≠ [] := by
  unfold intChars
  split
  · simp
  · exact natChars_ne_nil _

lemma renderDice_ne_nil (d : Dice) : renderDice d ≠ [] := by
  unfold renderDice
  intro h
  exact natChars_ne_nil d.throws (List.append_eq_nil.mp h).1

lemma renderDice_head_digit (d : Dice) :
    headSat (fun c => c.isDigit = true) (renderDice d) := by
  unfold renderDice
  exact headSat_append_left _ _ (natChars_ne_nil _) (natChars_headSat_digit _)

lemma renderFilteredDice_ne_nil (fd : FilteredDice) : renderFilteredDice fd ≠ [] := by
  cases fd with
  | Simple d => exact renderDice_ne_nil d
  | Filtered d f t =>
    simp only [renderFilteredDice]
    intro h
    exact renderDice_ne_nil d ((List.append_eq_nil.mp ((List.append_eq_nil.mp h).1)).1)

lemma renderFilteredDice_head_digit (fd : FilteredDice) :
    headSat (fun c => c.isDigit = true) (renderFilteredDice fd) := by
  cases fd with
  | Simple d => exact renderDice_head_digit d
  | Filtered d f t =>
    simp only [renderFilteredDice, List.append_assoc]
    exact headSat_append_left _ _ (renderDice_ne_nil d) (renderDice_head_digit d)

lemma renderSelectedDice_ne_nil (sd : SelectedDice) : renderSelectedDice sd ≠ [] := by
  cases sd with
  | Unchanged fd => exact renderFilteredDice_ne_nil fd
  | Selected fd sel k =>
    simp only [renderSelectedDice]
    intro h
    exact renderFilteredDice_ne_nil fd
      ((List.append_eq_nil.mp ((List.append_eq_nil.mp h).1)).1)

lemma renderSelectedDice_head_digit (sd : SelectedDice) :
    headSat (fun c => c.isDigit = true) (renderSelectedDice sd) := by
  cases sd with
  | Unchanged fd => exact renderFilteredDice_head_digit fd
  | Selected fd sel k =>
    simp only [renderSelectedDice, List.append_assoc]
    exact headSat_append_left _ _ (renderFilteredDice_ne_nil fd)
      (renderFilteredDice_head_digit fd)

lemma renderTerm_head (t : Term) :
    renderTerm t ≠ [] ∧ headSat (fun c => spaceB c = false) (renderTerm t) := by
  induction t with
  | Constant i =>
    refine ⟨intChars_ne_nil i, ?_⟩
    simp only [renderTerm]
    unfold intChars
    split
    · simp only [headSat]
      decide
    · exact headSat_imp (fun c hc => spaceB_of_isDigit c hc) (natChars_headSat_digit _)
  | DiceThrow sd =>
    refine ⟨renderSelectedDice_ne_nil sd, ?_⟩
    exact headSat_imp (fun c hc => spaceB_of_isDigit c hc)
      (renderSelectedDice_head_digit sd)
  | Calculation l op r ihl ihr =>
    have hsh : renderTerm (.Calculation l op r)
        = renderTerm l ++ (' ' :: renderOperation op ++ ' ' :: renderTerm r) := by
      simp [renderTerm, List.append_assoc]
    rw [hsh]
    refine ⟨?_, ?_⟩
    · intro h
      exact ihl.1 (List.append_eq_nil.mp h).1
    · exact headSat_append_left _ _ ihl.1 ihl.2
  | SubTerm a ih =>
    refine ⟨by simp [renderTerm], ?_⟩
    simp only [renderTerm, List.cons_append, headSat]
    decide

/-! ## Operator print-parse lemmas -/

lemma parseOperator_print (op : Operation) (rest : List Char) :
    parseOperator (renderOperation op ++ rest) = some (rest, op) := by
  cases op
  case Add =>
    unfold parseOperator
    simp only [renderOperation, List.cons_append, List.nil_append]
    exact palt2_first _ _ _ _ (pmap_comp _ _ _ _ _ (ptag1_hit '+' rest))
  case Sub =>
    unfold parseOperator
    simp only [renderOperation, List.cons_append, List.nil_append]
    rw [palt2_second _ _ _ (pmap_none _ _ _ (ptag1_miss '+' '-' rest (by decide)))]
    exact palt2_first _ _ _ _ (pmap_comp _ _ _ _ _ (ptag1_hit '-' rest))
  case Mul =>
    unfold parseOperator
    simp only [renderOperation, List.cons_append, List.nil_append]
    rw [palt2_second _ _ _ (pmap_none _ _ _ (ptag1_miss '+' '*' rest (by decide)))]
    rw [palt2_second _ _ _ (pmap_none _ _ _ (ptag1_miss '-' '*' rest (by decide)))]
    exact palt2_first _ _ _ _ (pmap_comp _ _ _ _ _ (ptag1_hit '*' rest))
  case Div =>
    unfold parseOperator
    simp only [renderOperation, List.cons_append, List.nil_append]
    rw [palt2_second _ _ _ (pmap_none _ _ _ (ptag1_miss '+' '/' rest (by decide)))]
    rw [palt2_second _ _ _ (pmap_none _ _ _ (ptag1_miss '-' '/' rest (by decide)))]
    rw [palt2_second _ _ _ (pmap_none _ _ _ (ptag1_miss '*' '/' rest (by decide)))]
    exact pmap_comp _ _ _ _ _ (ptag1_hit '/' rest)

lemma parseOperator_none (s : List Char)
    (h : headSat (fun c => c ∉ (['+', '-', '*', '/'] : List Char)) s) :
    parseOperator s = none := by
  cases s with
  | nil =>
    unfold parseOperator
    rw [palt2_second _ _ _ (pmap_none _ _ _ (ptag1_nil '+'))]
    rw [palt2_second _ _ _ (pmap_none _ _ _ (ptag1_nil '-'))]
    rw [palt2_second _ _ _ (pmap_none _ _ _ (ptag1_nil '*'))]
    exact pmap_none _ _ _ (ptag1_nil '/')
  | cons c t =>
    simp only [headSat] at h
    have h1 : c ≠ '+' := fun hh => h (by rw [hh]; simp)
    have h2 : c ≠ '-' := fun hh => h (by rw [hh]; simp)
    have h3 : c ≠ '*' := fun hh => h (by rw [hh]; simp)
    have h4 : c ≠ '/' := fun hh => h (by rw [hh]; simp)
    unfold parseOperator
    rw [palt2_second _ _ _ (pmap_none _ _ _ (ptag1_miss '+' c t h1))]
    rw [palt2_second _ _ _ (pmap_none _ _ _ (ptag1_miss '-' c t h2))]
    rw [palt2_second _ _ _ (pmap_none _ _ _ (ptag1_miss '*' c t h3))]
    exact pmap_none _ _ _ (ptag1_miss '/' c t h4)

lemma stopRest_noOp (rest : List Char) (h : stopRest rest) :
    headSat (fun c => c ∉ (['+', '-', '*', '/'] : List Char)) (rest.dropWhile spaceB) := by
  rcases h with rfl | ⟨t, rfl⟩ | ⟨t, rfl⟩
  · trivial
  · rw [dropWhile_of_headSat _ (by simp only [headSat]; decide)]
    simp only [headSat]
    decide
  · rw [dropWhile_of_headSat _ (by simp only [headSat]; decide)]
    simp only [headSat]
    decide

/-! ## Failure lemmas for the simple-term alternation -/

lemma pdigit1_none (s : List Char) (h : headSat (fun c => c.isDigit = false) s) :
    pdigit1 s = none := by
  cases s with
  | nil => rfl
  | cons c t =>
    simp only [headSat] at h
    simp [pdigit1, List.takeWhile_cons, h]

lemma parseI64_none_head (s : List Char)
    (h : headSat (fun c => c.isDigit = false ∧ c ≠ '+' ∧ c ≠ '-') s) :
    parseI64 s = none := by
  have halt : palt2 (ptag ['+']) (palt2 (ptag ['-']) (psuccess [])) s = some (s, []) := by
    cases s with
    | nil =>
      rw [palt2_second _ _ _ (ptag1_nil '+'), palt2_second _ _ _ (ptag1_nil '-')]
      rfl
    | cons c t =>
      simp only [headSat] at h
      rw [palt2_second _ _ _ (ptag1_miss '+' c t h.2.1),
        palt2_second _ _ _ (ptag1_miss '-' c t h.2.2)]
      rfl
  have hdig : pdigit1 s = none :=
    pdigit1_none s (headSat_imp (fun c hc => hc.1) h)
  have hpair : ppair (palt2 (ptag ['+']) (palt2 (ptag ['-']) (psuccess []))) pdigit1 s
      = none := ppair_none2 _ _ _ _ _ halt hdig
  unfold parseI64
  simp [pmapRes, precognize, hpair]

lemma parseDice_none_nodigit (s : List Char)
    (h : headSat (fun c => c.isDigit = false ∧ spaceB c = false
      ∧ lowerC c ≠ 'd' ∧ lowerC c ≠ 'w') s) :
    parseDice s = none := by
  have hu : parseU32 s = none := parseU32_none s (headSat_imp (fun c hc => hc.1) h)
  have halt : palt2 parseU32 (psuccess 1) s = some (s, 1) := by
    rw [palt2_second _ _ _ hu]
    rfl
  have hms : pms0 s = some (s, ()) :=
    pms0_nodrop s (headSat_imp (fun c hc => hc.2.1) h)
  have hleft := pterminated_comp _ _ _ _ _ _ _ halt hms
  have hdd : parseDiceDigit s = none :=
    parseDiceDigit_none s (headSat_imp (fun c hc => ⟨hc.2.2.1, hc.2.2.2⟩) h)
  have hright : ppreceded parseDiceDigit (ppreceded pms0 parseDiceType) s = none := by
    unfold ppreceded
    exact pmap_none _ _ _ (ppair_none1 _ _ _ hdd)
  unfold parseDice
  exact pmap_none _ _ _ (ppair_none2 _ _ _ _ _ hleft hright)

lemma parseDice_none_digits (ds rest : List Char) (hne : ds ≠ [])
    (hall : ∀ c ∈ ds, c.isDigit = true) (hAtom : AtomRest rest) :
    parseDice (ds ++ rest) = none := by
  obtain ⟨htake, hdropd⟩ := takeWhile_append_all ds rest hall hAtom.1
  have hchar := parseU32_characterization (ds ++ rest)
  rw [htake, hdropd] at hchar
  obtain ⟨c, t, rfl⟩ : ∃ c t, ds = c :: t := by
    cases ds with
    | nil => exact absurd rfl hne
    | cons c t => exact ⟨c, t, rfl⟩
  have hcd : c.isDigit = true := hall c (List.mem_cons_self _ _)
  cases hu : parseU32 ((c :: t) ++ rest) with
  | none =>
    have halt : palt2 parseU32 (psuccess 1) ((c :: t) ++ rest)
        = some ((c :: t) ++ rest, 1) := by
      rw [palt2_second _ _ _ hu]
      rfl
    have hms : pms0 ((c :: t) ++ rest) = some ((c :: t) ++ rest, ()) := by
      apply pms0_nodrop
      simp only [List.cons_append, headSat]
      exact spaceB_of_isDigit c hcd
    have hleft := pterminated_comp _ _ _ _ _ _ _ halt hms
    have hdd : parseDiceDigit ((c :: t) ++ rest) = none := by
      apply parseDiceDigit_none
      simp only [List.cons_append, headSat]
      rw [lowerC_of_isDigit c hcd]
      exact ⟨ne_of_isDigit c 'd' hcd (by decide), ne_of_isDigit c 'w' hcd (by decide)⟩
    have hright : ppreceded parseDiceDigit (ppreceded pms0 parseDiceType)
        ((c :: t) ++ rest) = none := by
      unfold ppreceded
      exact pmap_none _ _ _ (ppair_none1 _ _ _ hdd)
    unfold parseDice
    exact pmap_none _ _ _ (ppair_none2 _ _ _ _ _ hleft hright)
  | some r =>
    rw [hu] at hchar
    split at hchar
    · obtain ⟨v, hrv⟩ : ∃ v, r = (rest, v) := by
        cases hchar
        exact ⟨_, rfl⟩
      have halt : palt2 parseU32 (psuccess 1) ((c :: t) ++ rest) = some (rest, v) := by
        rw [← hrv]
        exact palt2_first _ _ _ _ hu
      have hms : pms0 rest = some (rest.dropWhile spaceB, ()) := rfl
      have hleft := pterminated_comp _ _ _ _ _ _ _ halt hms
      have hdd : parseDiceDigit (rest.dropWhile spaceB) = none :=
        parseDiceDigit_none _ (atomRest_not_dw rest hAtom)
      have hright : ppreceded parseDiceDigit (ppreceded pms0 parseDiceType)
          (rest.dropWhile spaceB) = none := by
        unfold ppreceded
        exact pmap_none _ _ _ (ppair_none1 _ _ _ hdd)
      unfold parseDice
      exact pmap_none _ _ _ (ppair_none2 _ _ _ _ _ hleft hright)
    · cases hchar

lemma parseSelectedDice_none_of_dice (s : List Char) (h : parseDice s = none) :
    parseSelectedDice s = none := by
  have hfd : parseFilteredDice s = none := by
    unfold parseFilteredDice
    rw [palt2_second _ _ _ (pmap_none _ _ _ (ppair_none1 _ _ _ h))]
    exact pmap_none _ _ _ h
  unfold parseSelectedDice
  rw [palt2_second _ _ _ (pmap_none _ _ _ (ppair_none1 _ _ _ hfd))]
  exact pmap_none _ _ _ hfd

lemma parseTermRoll_none_of_dice (s : List Char) (h : parseDice s = none) :
    parseTermRoll s = none :=
  pmap_none _ _ _ (parseSelectedDice_none_of_dice s h)

/-- The simple-term alternation inside `parse_term` (roll, constant,
parenthesised sub-term), parameterised by the recursive parser. -/
def altSimple (p : P Term) : P Term :=
  palt2 parseTermRoll (palt2 parseTermConstant (parseTermSubtermWith p))

lemma parseTermF_succ (n : Nat) :
    parseTermF (n + 1)
      = palt2 (parseTermCalculationWith (parseTermF n)) (altSimple (parseTermF n)) :=
  rfl

lemma parseTermCalculationWith_eq (p : P Term) :
    parseTermCalculationWith p
      = pmap (ppair (altSimple p) (ppair (pdelimited pms0 parseOperator pms0) p))
          (fun r => .Calculation r.1 r.2.1 r.2.2) :=
  rfl

lemma PT_calc_inv {l : Term} {op : Operation} {r : Term}
    (h : PT (.Calculation l op r)) : PT l ∧ notCalc l ∧ PT r := by
  cases h
  exact ⟨by assumption, by assumption, by assumption⟩

lemma PT_const_inv {i : Int} (h : PT (.Constant i)) : inI64 i := by
  cases h
  assumption

lemma PT_dice_inv {d : SelectedDice} (h : PT (.DiceThrow d)) : WFsd d := by
  cases h
  assumption

lemma PT_sub_inv {t : Term} (h : PT (.SubTerm t)) : PT t := by
  cases h
  assumption

lemma renderOperation_ne_nil (op : Operation) : renderOperation op ≠ [] := by
  cases op <;> simp [renderOperation]

lemma renderOperation_nospace (op : Operation) :
    headSat (fun c => spaceB c = false) (renderOperation op) := by
  cases op <;> simp only [renderOperation, headSat] <;> decide

lemma renderOperation_notAtom (op : Operation) :
    headSat
      (fun c => lowerC c ∉ (['x', '>', '<', '!', 'h', 'k', 'l', 'd', 'w'] : List Char))
      (renderOperation op) := by
  cases op <;> simp only [renderOperation, headSat] <;> decide

/-- The tail a rendered left operand sees (space, operator, more input) is a
valid atom rest. -/
lemma opRest_atomRest (op : Operation) (X : List Char) :
    AtomRest (' ' :: (renderOperation op ++ X)) := by
  constructor
  · simp only [headSat]
    decide
  · rw [dropWhile_space_cons,
      dropWhile_of_headSat _ (headSat_append_left _ _ (renderOperation_ne_nil op)
        (renderOperation_nospace op))]
    exact headSat_append_left _ _ (renderOperation_ne_nil op) (renderOperation_notAtom op)

/-- Main print-parse induction: a term in the parser's range, rendered and
followed by a suitable rest, is parsed back exactly — both by the simple-term
alternation (when the term is not a top-level `Calculation`) and by the full
fueled `parse_term`. -/
lemma parse_print_main :
    ∀ N : Nat, ∀ t : Term, sizeT t ≤ N → PT t →
      (∀ (g : Nat) (rest : List Char), sizeT t ≤ g → notCalc t → AtomRest rest →
        altSimple (parseTermF g) (renderTerm t ++ rest) = some (rest, t))
      ∧ (∀ (f : Nat) (rest : List Char), sizeT t < f → stopRest rest →
        parseTermF f (renderTerm t ++ rest) = some (rest, t)) := by
  intro N
  induction N with
  | zero =>
    intro t hsz _
    have := sizeT_pos t
    omega
  | succ N ih =>
    intro t hsz hPT
    have hL12 : ∀ (g : Nat) (rest : List Char), sizeT t ≤ g → notCalc t →
        AtomRest rest →
        altSimple (parseTermF g) (renderTerm t ++ rest) = some (rest, t) := by
      intro g rest hg hnc hAtom
      cases t with
      | Constant i =>
        have hi : inI64 i := PT_const_inv hPT
        have hroll : parseTermRoll (renderTerm (Term.Constant i) ++ rest) = none := by
          by_cases hneg : i < 0
          · have hich : renderTerm (Term.Constant i) = '-' :: natChars (-i).toNat := by
              simp [renderTerm, intChars, hneg]
            rw [hich]
            apply parseTermRoll_none_of_dice
            apply parseDice_none_nodigit
            simp only [List.cons_append, headSat]
            refine ⟨by decide, by decide, by decide, by decide⟩
          · have hich : renderTerm (Term.Constant i) = natChars i.toNat := by
              simp [renderTerm, intChars, hneg]
            rw [hich]
            exact parseTermRoll_none_of_dice _
              (parseDice_none_digits _ rest (natChars_ne_nil _)
                (natChars_all_digits _) hAtom)
        have hconst : parseTermConstant (renderTerm (Term.Constant i) ++ rest)
            = some (rest, Term.Constant i) :=
          pmap_comp _ _ _ _ _ (parseI64_print i hi rest hAtom.1)
        unfold altSimple
        rw [palt2_second _ _ _ hroll]
        exact palt2_first _ _ _ _ hconst
      | DiceThrow sd =>
        have hw : WFsd sd := PT_dice_inv hPT
        have hr : parseTermRoll (renderTerm (Term.DiceThrow sd) ++ rest)
            = some (rest, Term.DiceThrow sd) :=
          pmap_comp _ _ _ _ _ (parseSelectedDice_print sd hw rest hAtom)
        unfold altSimple
        exact palt2_first _ _ _ _ hr
      | Calculation l op r => exact False.elim hnc
      | SubTerm a =>
        have hPTa : PT a := PT_sub_inv hPT
        have hszA : sizeT a + 1 ≤ N + 1 := hsz
        have hga : sizeT a + 1 ≤ g := hg
        have hsh : renderTerm (Term.SubTerm a) ++ rest
            = '(' :: (renderTerm a ++ (')' :: rest)) := by
          simp [renderTerm]
        have hroll : parseTermRoll (renderTerm (Term.SubTerm a) ++ rest) = none := by
          rw [hsh]
          apply parseTermRoll_none_of_dice
          apply parseDice_none_nodigit
          simp only [headSat]
          refine ⟨by decide, by decide, by decide, by decide⟩
        have hconst : parseTermConstant (renderTerm (Term.SubTerm a) ++ rest) = none := by
          rw [hsh]
          apply pmap_none
          apply parseI64_none_head
          simp only [headSat]
          refine ⟨by decide, by decide, by decide⟩
        have hinner : parseTermF g (renderTerm a ++ (')' :: rest))
            = some (')' :: rest, a) :=
          (ih a (by omega) hPTa).2 g (')' :: rest) (by omega)
            (Or.inr (Or.inl ⟨rest, rfl⟩))
        have hms1 : pms0 (renderTerm a ++ (')' :: rest))
            = some (renderTerm a ++ (')' :: rest), ()) :=
          pms0_nodrop _
            (headSat_append_left _ _ (renderTerm_head a).1 (renderTerm_head a).2)
        have hms2 : pms0 (')' :: rest) = some (')' :: rest, ()) :=
          pms0_nodrop _ (by simp only [headSat]; decide)
        have hlp : ptag [lparen] ('(' :: (renderTerm a ++ (')' :: rest)))
            = some (renderTerm a ++ (')' :: rest), [lparen]) := ptag1_hit lparen _
        have hrp : ptag [rparen] (')' :: rest) = some (rest, [rparen]) :=
          ptag1_hit rparen rest
        have hin : pdelimited pms0 (parseTermF g) pms0 (renderTerm a ++ (')' :: rest))
            = some (')' :: rest, a) :=
          pdelimited_comp _ _ _ _ _ _ _ _ _ _ hms1 hinner hms2
        have hsub : parseTermSubtermWith (parseTermF g)
            (renderTerm (Term.SubTerm a) ++ rest) = some (rest, Term.SubTerm a) := by
          rw [hsh]
          unfold parseTermSubtermWith
          exact pmap_comp _ _ _ _ _ (pdelimited_comp _ _ _ _ _ _ _ _ _ _ hlp hin hrp)
        unfold altSimple
        rw [palt2_second _ _ _ hroll, palt2_second _ _ _ hconst]
        exact hsub
    refine ⟨hL12, ?_⟩
    intro f rest hf hstop
    cases f with
    | zero => exact absurd hf (by omega)
    | succ g =>
      rw [parseTermF_succ]
      have hsimpleCase : notCalc t →
          palt2 (parseTermCalculationWith (parseTermF g)) (altSimple (parseTermF g))
            (renderTerm t ++ rest) = some (rest, t) := by
        intro hnc
        have hsimple := hL12 g rest (by omega) hnc (stopRest_atomRest rest hstop)
        have hopfail : pdelimited pms0 parseOperator pms0 rest = none := by
          unfold pdelimited
          apply pmap_none
          apply ppair_none2 _ _ _ _ _ (pms0_eq rest)
          exact ppair_none1 _ _ _ (parseOperator_none _ (stopRest_noOp rest hstop))
        have hcalfail : parseTermCalculationWith (parseTermF g)
            (renderTerm t ++ rest) = none := by
          rw [parseTermCalculationWith_eq]
          apply pmap_none
          exact ppair_none2 _ _ _ _ _ hsimple (ppair_none1 _ _ _ hopfail)
        rw [palt2_second _ _ _ hcalfail]
        exact hsimple
      cases t with
      | Constant i => exact hsimpleCase trivial
      | DiceThrow sd => exact hsimpleCase trivial
      | SubTerm a => exact hsimpleCase trivial
      | Calculation l op r =>
        obtain ⟨hPTl, hncl, hPTr⟩ := PT_calc_inv hPT
        have hsl := sizeT_pos l
        have hsr := sizeT_pos r
        have hsize : sizeT (Term.Calculation l op r) = sizeT l + sizeT r + 1 := rfl
        rw [hsize] at hsz hf
        have ihl := (ih l (by omega) hPTl).1
        have ihr := (ih r (by omega) hPTr).2
        have hsh : renderTerm (Term.Calculation l op r) ++ rest
            = renderTerm l
              ++ (' ' :: (renderOperation op ++ (' ' :: (renderTerm r ++ rest)))) := by
          simp [renderTerm]
        have hAtomOp :
            AtomRest (' ' :: (renderOperation op ++ (' ' :: (renderTerm r ++ rest)))) :=
          opRest_atomRest op _
        have hleft := ihl g (' ' :: (renderOperation op ++ (' ' :: (renderTerm r ++ rest))))
          (by omega) hncl hAtomOp
        have hms1 : pms0 (' ' :: (renderOperation op ++ (' ' :: (renderTerm r ++ rest))))
            = some (renderOperation op ++ (' ' :: (renderTerm r ++ rest)), ()) := by
          rw [pms0_eq, dropWhile_space_cons,
            dropWhile_of_headSat _ (headSat_append_left _ _ (renderOperation_ne_nil op)
              (renderOperation_nospace op))]
        have hopp : parseOperator (renderOperation op ++ (' ' :: (renderTerm r ++ rest)))
            = some (' ' :: (renderTerm r ++ rest), op) := parseOperator_print op _
        have hms2 : pms0 (' ' :: (renderTerm r ++ rest))
            = some (renderTerm r ++ rest, ()) := by
          rw [pms0_eq, dropWhile_space_cons,
            dropWhile_of_headSat _
              (headSat_append_left _ _ (renderTerm_head r).1 (renderTerm_head r).2)]
        have hop := pdelimited_comp _ _ _ _ _ _ _ _ _ _ hms1 hopp hms2
        have hright := ihr g rest (by omega) hstop
        have hcal : parseTermCalculationWith (parseTermF g)
            (renderTerm (Term.Calculation l op r) ++ rest)
            = some (rest, Term.Calculation l op r) := by
          rw [parseTermCalculationWith_eq, hsh]
          exact pmap_comp _ _ _ _ _
            (ppair_comp _ _ _ _ _ _ _ hleft (ppair_comp _ _ _ _ _ _ _ hop hright))
        exact palt2_first _ _ _ _ hcal

lemma renderOperation_length (op : Operation) : (renderOperation op).length = 1 := by
  cases op <;> rfl

/-- The render is at least as long as the term has nodes, so
`input length + 1` is always enough parsing fuel. -/
lemma sizeT_le_render (t : Term) : sizeT t ≤ (renderTerm t).length := by
  induction t with
  | Constant i =>
    simp only [sizeT, renderTerm]
    exact List.length_pos.mpr (intChars_ne_nil i)
  | DiceThrow sd =>
    simp only [sizeT, renderTerm]
    exact List.length_pos.mpr (renderSelectedDice_ne_nil sd)
  | Calculation l op r ihl ihr =>
    have hop := renderOperation_length op
    simp only [sizeT, renderTerm, List.length_append, List.length_cons]
    omega
  | SubTerm a ih =>
    simp only [sizeT, renderTerm, List.length_append, List.length_cons]
    omega

/-- The precedence rotation permutes subtrees without touching the leaves'
left-to-right order, so it does not change the rendered text. -/
lemma render_rearange_f : ∀ (n : Nat) (t : Term), sizeT t ≤ n →
    renderTerm (rearangeTerm t) = renderTerm t := by
  intro n
  induction n with
  | zero =>
    intro t h
    have := sizeT_pos t
    omega
  | succ n ih =>
    intro t h
    cases t with
    | Constant i => rfl
    | DiceThrow d => rfl
    | SubTerm a =>
      have ha : sizeT a ≤ n := by
        have h2 : sizeT a + 1 ≤ n + 1 := h
        omega
      show renderTerm (.SubTerm (rearangeTerm a)) = renderTerm (.SubTerm a)
      simp only [renderTerm, ih a ha]
    | Calculation l op r =>
      have hsl := sizeT_pos l
      by_cases hop : op = .Mul ∨ op = .Div
      · cases r with
        | Calculation l2 op2 r2 =>
          have hre : rearangeTerm (.Calculation l op (.Calculation l2 op2 r2))
              = .Calculation (.Calculation l op l2) op2 (rearangeTerm r2) := by
            simp only [rearangeTerm]
            rw [if_pos hop]
          have hr2 : sizeT r2 ≤ n := by
            have h2 : sizeT l + (sizeT l2 + sizeT r2 + 1) + 1 ≤ n + 1 := h
            have := sizeT_pos l2
            omega
          rw [hre]
          simp only [renderTerm, ih r2 hr2]
          simp [List.append_assoc]
        | Constant i =>
          have hre : rearangeTerm (.Calculation l op (.Constant i))
              = .Calculation l op (rearangeTerm (.Constant i)) := by
            simp only [rearangeTerm]
            rw [if_pos hop]
          rw [hre]
          rfl
        | DiceThrow d =>
          have hre : rearangeTerm (.Calculation l op (.DiceThrow d))
              = .Calculation l op (rearangeTerm (.DiceThrow d)) := by
            simp only [rearangeTerm]
            rw [if_pos hop]
          rw [hre]
          rfl
        | SubTerm a2 =>
          have hre : rearangeTerm (.Calculation l op (.SubTerm a2))
              = .Calculation l op (rearangeTerm (.SubTerm a2)) := by
            simp only [rearangeTerm]
            rw [if_pos hop]
          have ha2 : sizeT a2 ≤ n := by
            have h2 : sizeT l + (sizeT a2 + 1) + 1 ≤ n + 1 := h
            omega
          rw [hre]
          simp only [renderTerm, ih a2 ha2]
      · cases r with
        | Constant i =>
          have hre : rearangeTerm (.Calculation l op (.Constant i))
              = .Calculation l op (rearangeTerm (.Constant i)) := by
            simp only [rearangeTerm]
            rw [if_neg hop]
          rw [hre]
          rfl
        | DiceThrow d =>
          have hre : rearangeTerm (.Calculation l op (.DiceThrow d))
              = .Calculation l op (rearangeTerm (.DiceThrow d)) := by
            simp only [rearangeTerm]
            rw [if_neg hop]
          rw [hre]
          rfl
        | SubTerm a2 =>
          have hre : rearangeTerm (.Calculation l op (.SubTerm a2))
              = .Calculation l op (rearangeTerm (.SubTerm a2)) := by
            simp only [rearangeTerm]
            rw [if_neg hop]
          have ha2 : sizeT a2 ≤ n := by
            have h2 : sizeT l + (sizeT a2 + 1) + 1 ≤ n + 1 := h
            omega
          rw [hre]
          simp only [renderTerm, ih a2 ha2]
        | Calculation l2 op2 r2 =>
          have hre : rearangeTerm (.Calculation l op (.Calculation l2 op2 r2))
              = .Calculation l op (rearangeTerm (.Calculation l2 op2 r2)) := by
            simp only [rearangeTerm]
            rw [if_neg hop]
          have hX : sizeT (Term.Calculation l2 op2 r2) ≤ n := by
            have h2 : sizeT l + (sizeT l2 + sizeT r2 + 1) + 1 ≤ n + 1 := h
            show sizeT l2 + sizeT r2 + 1 ≤ n
            omega
          rw [hre]
          simp only [renderTerm, ih (Term.Calculation l2 op2 r2) hX]

lemma render_rearange (t : Term) : renderTerm (rearangeTerm t) = renderTerm t :=
  render_rearange_f (sizeT t) t (le_refl _)

/-! ## Forward inversion: every parser output is in `PT` -/

lemma parseU32_inv (s rest : List Char) (v : Nat) (h : parseU32 s = some (rest, v)) :
    WFn v := by
  rw [parseU32_characterization] at h
  split at h
  · rename_i hc
    cases h
    exact ⟨hc.2.1, hc.2.2⟩
  · cases h

lemma rustParseI64_inv (cs : List Char) (i : Int) (h : rustParseI64 cs = some i) :
    inI64 i := by
  unfold rustParseI64 at h
  split at h
  · rename_i t
    split at h
    · rename_i hc
      cases h
      have h0 : (0 : Int) ≤ (digitsVal t : Int) := Int.ofNat_nonneg _
      have hb := hc.2.2
      unfold i64Max at hb
      unfold inI64 i64Min i64Max
      omega
    · cases h
  · rename_i t
    split at h
    · rename_i hc
      cases h
      have h0 : (0 : Int) ≤ (digitsVal t : Int) := Int.ofNat_nonneg _
      have hb := hc.2.2
      unfold i64Min at hb
      unfold inI64 i64Min i64Max
      omega
    · cases h
  · split at h
    · rename_i hc
      cases h
      have h0 : (0 : Int) ≤ (digitsVal cs : Int) := Int.ofNat_nonneg _
      have hb := hc.2.2
      unfold i64Max at hb
      unfold inI64 i64Min i64Max
      omega
    · cases h

lemma parseI64_inv (s rest : List Char) (i : Int) (h : parseI64 s = some (rest, i)) :
    inI64 i := by
  unfold parseI64 at h
  obtain ⟨a, _, hf⟩ := pmapRes_inv _ _ _ _ _ h
  exact rustParseI64_inv a i hf

lemma parseDiceType_inv (s rest : List Char) (dt : DiceType)
    (h : parseDiceType s = some (rest, dt)) : WFdiceType dt := by
  unfold parseDiceType at h
  rcases palt2_inv _ _ _ _ h with h1 | ⟨_, h1⟩
  · obtain ⟨a, ha, rfl⟩ := pmap_inv _ _ _ _ _ h1
    obtain ⟨m, b, hu, _⟩ := pterminated_inv _ _ _ _ _ ha
    exact parseU32_inv _ _ _ hu
  · rcases palt2_inv _ _ _ _ h1 with h2 | ⟨_, h2⟩
    · obtain ⟨a, ha, rfl⟩ := pmap_inv _ _ _ _ _ h2
      exact parseU32_inv _ _ _ ha
    · rcases palt2_inv _ _ _ _ h2 with h3 | ⟨_, h3⟩
      · obtain ⟨a, ha, rfl⟩ := pmap_inv _ _ _ _ _ h3
        trivial
      · obtain ⟨a, ha, rfl⟩ := pmap_inv _ _ _ _ _ h3
        exact ⟨by decide, by decide⟩

lemma parseDice_inv (s rest : List Char) (d : Dice)
    (h : parseDice s = some (rest, d)) : WFdice d := by
  unfold parseDice at h
  obtain ⟨a, ha, rfl⟩ := pmap_inv _ _ _ _ _ h
  obtain ⟨m, h1, h2⟩ := ppair_inv _ _ _ _ _ ha
  obtain ⟨m2, b, hu, _⟩ := pterminated_inv _ _ _ _ _ h1
  obtain ⟨m3, a3, _, h4⟩ := ppreceded_inv _ _ _ _ _ h2
  obtain ⟨m5, a5, _, h6⟩ := ppreceded_inv _ _ _ _ _ h4
  constructor
  · rcases palt2_inv _ _ _ _ hu with h7 | ⟨_, h7⟩
    · exact parseU32_inv _ _ _ h7
    · simp only [psuccess, Option.some.injEq, Prod.mk.injEq] at h7
      obtain ⟨-, h8⟩ := h7
      rw [← h8]
      refine ⟨le_refl 1, ?_⟩
      show (1 : Nat) ≤ u32Max
      decide
  · exact parseDiceType_inv _ _ _ h6

lemma parseFilteredDice_inv (s rest : List Char) (fd : FilteredDice)
    (h : parseFilteredDice s = some (rest, fd)) : WFfd fd := by
  unfold parseFilteredDice at h
  rcases palt2_inv _ _ _ _ h with h1 | ⟨_, h1⟩
  · obtain ⟨a, ha, rfl⟩ := pmap_inv _ _ _ _ _ h1
    obtain ⟨m, hd, h2⟩ := ppair_inv _ _ _ _ _ ha
    obtain ⟨m2, hdel, hu⟩ := ppair_inv _ _ _ _ _ h2
    exact ⟨parseDice_inv _ _ _ hd, parseU32_inv _ _ _ hu⟩
  · obtain ⟨a, ha, rfl⟩ := pmap_inv _ _ _ _ _ h1
    exact parseDice_inv _ _ _ ha

lemma parseSelectedDice_inv (s rest : List Char) (sd : SelectedDice)
    (h : parseSelectedDice s = some (rest, sd)) : WFsd sd := by
  unfold parseSelectedDice at h
  rcases palt2_inv _ _ _ _ h with h1 | ⟨_, h1⟩
  · obtain ⟨a, ha, rfl⟩ := pmap_inv _ _ _ _ _ h1
    obtain ⟨m, hfd, h2⟩ := ppair_inv _ _ _ _ _ ha
    obtain ⟨m2, hdel, hu⟩ := ppair_inv _ _ _ _ _ h2
    exact ⟨parseFilteredDice_inv _ _ _ hfd, parseU32_inv _ _ _ hu⟩
  · obtain ⟨a, ha, rfl⟩ := pmap_inv _ _ _ _ _ h1
    exact parseFilteredDice_inv _ _ _ ha

lemma altSimple_PT (n : Nat)
    (hn : ∀ s rest t, parseTermF n s = some (rest, t) → PT t)
    (s rest : List Char) (t : Term) (h : altSimple (parseTermF n) s = some (rest, t)) :
    PT t ∧ notCalc t := by
  unfold altSimple at h
  rcases palt2_inv _ _ _ _ h with h1 | ⟨_, h1⟩
  · obtain ⟨a, ha, rfl⟩ := pmap_inv _ _ _ _ _ h1
    exact ⟨PT.dice a (parseSelectedDice_inv _ _ _ ha), trivial⟩
  · rcases palt2_inv _ _ _ _ h1 with h2 | ⟨_, h2⟩
    · obtain ⟨a, ha, rfl⟩ := pmap_inv _ _ _ _ _ h2
      exact ⟨PT.const a (parseI64_inv _ _ _ ha), trivial⟩
    · unfold parseTermSubtermWith at h2
      obtain ⟨a, ha, rfl⟩ := pmap_inv _ _ _ _ _ h2
      obtain ⟨m1, m2, va, vc, _, hb, _⟩ := pdelimited_inv _ _ _ _ _ _ ha
      obtain ⟨m3, m4, vb2, vc2, _, hb2, _⟩ := pdelimited_inv _ _ _ _ _ _ hb
      exact ⟨PT.sub a (hn _ _ _ hb2), trivial⟩

lemma parseTermF_PT : ∀ (n : Nat) (s rest : List Char) (t : Term),
    parseTermF n s = some (rest, t) → PT t := by
  intro n
  induction n with
  | zero =>
    intro s rest t h
    simp [parseTermF] at h
  | succ n ih =>
    intro s rest t h
    rw [parseTermF_succ] at h
    rcases palt2_inv _ _ _ _ h with h1 | ⟨_, h1⟩
    · rw [parseTermCalculationWith_eq] at h1
      obtain ⟨a, ha, rfl⟩ := pmap_inv _ _ _ _ _ h1
      obtain ⟨m, hl, h2⟩ := ppair_inv _ _ _ _ _ ha
      obtain ⟨m2, hop, hr⟩ := ppair_inv _ _ _ _ _ h2
      obtain ⟨hPTl, hncl⟩ := altSimple_PT n ih _ _ _ hl
      exact PT.calcNode _ _ _ hPTl hncl (ih _ _ _ hr)
    · exact (altSimple_PT n ih _ _ _ h1).1

/-! ## A rendered term never contains an opening brace -/

lemma brace_not_natChars (n : Nat) : Char.ofNat 123 ∉ natChars n := by
  intro hm
  have := natChars_all_digits n _ hm
  exact absurd this (by decide)

lemma brace_not_renderDiceType (dt : DiceType) :
    Char.ofNat 123 ∉ renderDiceType dt := by
  cases dt with
  | Number n =>
    intro hm
    rcases List.mem_cons.mp hm with h | h
    · exact absurd h (by decide)
    · exact brace_not_natChars n h
  | Fudge => decide
  | Multiply n =>
    intro hm
    rcases List.mem_append.mp hm with h | h
    · rcases List.mem_cons.mp h with h2 | h2
      · exact absurd h2 (by decide)
      · exact brace_not_natChars n h2
    · exact absurd h (by decide)

lemma brace_not_renderDice (d : Dice) : Char.ofNat 123 ∉ renderDice d := by
  intro hm
  rcases List.mem_append.mp hm with h | h
  · exact brace_not_natChars _ h
  · exact brace_not_renderDiceType _ h

lemma brace_not_renderFilter (f : DFilter) : Char.ofNat 123 ∉ renderFilter f := by
  cases f <;> decide

lemma brace_not_renderFilteredDice (fd : FilteredDice) :
    Char.ofNat 123 ∉ renderFilteredDice fd := by
  cases fd with
  | Simple d => exact brace_not_renderDice d
  | Filtered d f n =>
    intro hm
    rcases List.mem_append.mp hm with h | h
    · rcases List.mem_append.mp h with h2 | h2
      · exact brace_not_renderDice d h2
      · exact brace_not_renderFilter f h2
    · exact brace_not_natChars n h

lemma brace_not_renderSelector (sel : Selector) :
    Char.ofNat 123 ∉ renderSelector sel := by
  cases sel <;> decide

lemma brace_not_renderSelectedDice (sd : SelectedDice) :
    Char.ofNat 123 ∉ renderSelectedDice sd := by
  cases sd with
  | Unchanged fd => exact brace_not_renderFilteredDice fd
  | Selected fd sel k =>
    intro hm
    rcases List.mem_append.mp hm with h | h
    · rcases List.mem_append.mp h with h2 | h2
      · exact brace_not_renderFilteredDice fd h2
      · exact brace_not_renderSelector sel h2
    · exact brace_not_natChars k h

lemma brace_not_intChars (i : Int) : Char.ofNat 123 ∉ intChars i := by
  unfold intChars
  split
  · intro hm
    rcases List.mem_cons.mp hm with h | h
    · exact absurd h (by decide)
    · exact brace_not_natChars _ h
  · exact brace_not_natChars _

lemma brace_not_renderOperation (op : Operation) :
    Char.ofNat 123 ∉ renderOperation op := by
  cases op <;> decide

lemma brace_not_renderTerm (t : Term) : Char.ofNat 123 ∉ renderTerm t := by
  induction t with
  | Constant i => exact brace_not_intChars i
  | DiceThrow sd => exact brace_not_renderSelectedDice sd
  | Calculation l op r ihl ihr =>
    intro hm
    simp only [renderTerm] at hm
    rcases List.mem_append.mp hm with h | h
    · rcases List.mem_append.mp h with h2 | h2
      · exact ihl h2
      · rcases List.mem_cons.mp h2 with h3 | h3
        · exact absurd h3 (by decide)
        · exact brace_not_renderOperation op h3
    · rcases List.mem_cons.mp h with h3 | h3
      · exact absurd h3 (by decide)
      · exact ihr h3
  | SubTerm a ih =>
    intro hm
    simp only [renderTerm] at hm
    rcases List.mem_append.mp hm with h | h
    · rcases List.mem_cons.mp h with h3 | h3
      · exact absurd h3 (by decide)
      · exact ih h3
    · exact absurd h (by decide)

lemma ptag1_none_of_suffix (c0 : Char) (s full : List Char) (hs : s <:+ full)
    (hmem : c0 ∉ full) : ptag [c0] s = none := by
  cases s with
  | nil => exact ptag1_nil c0
  | cons c t =>
    refine ptag1_miss c0 c t ?_
    intro hceq
    apply hmem
    rw [← hceq]
    exact hs.sublist.subset (List.mem_cons_self c t)

/-- On a bare rendered term the bundled-list alternative of
`parse_expression` always fails: the brace is never found. -/
lemma parseExpressionF_list_fail (n : Nat) (u : Term) :
    pmap
      (ppair parseU32
        (ppreceded pms0
          (pdelimited (ptag [lbrace]) (pdelimited pms0 (parseRearangedTermF n) pms0)
            (ptag [rbrace]))))
      (fun r => Expression.List r.1 r.2) (renderTerm u) = none := by
  cases hu : parseU32 (renderTerm u) with
  | none => exact pmap_none _ _ _ (ppair_none1 _ _ _ hu)
  | some r =>
    obtain ⟨m, v⟩ := r
    have hchar := parseU32_characterization (renderTerm u)
    rw [hu] at hchar
    have hm : m = (renderTerm u).dropWhile Char.isDigit := by
      split at hchar
      · cases hchar
        rfl
      · cases hchar
    have hsuff : m.dropWhile spaceB <:+ renderTerm u := by
      rw [hm]
      exact (List.dropWhile_suffix _).trans (List.dropWhile_suffix _)
    have hlb : ptag [lbrace] (m.dropWhile spaceB) = none :=
      ptag1_none_of_suffix lbrace _ _ hsuff (brace_not_renderTerm u)
    have hdel1 : pdelimited (ptag [lbrace])
        (pdelimited pms0 (parseRearangedTermF n) pms0) (ptag [rbrace])
        (m.dropWhile spaceB) = none := by
      unfold pdelimited
      exact pmap_none _ _ _ (ppair_none1 _ _ _ hlb)
    have hprec : ppreceded pms0
        (pdelimited (ptag [lbrace]) (pdelimited pms0 (parseRearangedTermF n) pms0)
          (ptag [rbrace])) m = none := by
      unfold ppreceded
      exact pmap_none _ _ _ (ppair_none2 _ _ _ _ _ (pms0_eq m) hdel1)
    exact pmap_none _ _ _ (ppair_none2 _ _ _ _ _ hu hprec)

/-- Print-parse for a bundled roll list, at any sufficient fuel. -/
lemma parseExpressionF_list_print (f k : Nat) (hk : WFn k) (t0 : Term) (hPT : PT t0)
    (hf : sizeT t0 < f) :
    parseExpressionF f (natChars k ++ ('{' :: (renderTerm t0 ++ ['}'])))
      = some ([], .List k (rearangeTerm t0)) := by
  have hu32 : parseU32 (natChars k ++ ('{' :: (renderTerm t0 ++ ['}'])))
      = some ('{' :: (renderTerm t0 ++ ['}']), k) :=
    parseU32_print k hk.1 hk.2 _ (by simp only [headSat]; decide)
  have hms0 : pms0 ('{' :: (renderTerm t0 ++ ['}']))
      = some ('{' :: (renderTerm t0 ++ ['}']), ()) :=
    pms0_nodrop _ (by simp only [headSat]; decide)
  have hlb : ptag [lbrace] ('{' :: (renderTerm t0 ++ ['}']))
      = some (renderTerm t0 ++ ['}'], [lbrace]) := ptag1_hit lbrace _
  have hmsA : pms0 (renderTerm t0 ++ ['}'])
      = some (renderTerm t0 ++ ['}'], ()) :=
    pms0_nodrop _ (headSat_append_left _ _ (renderTerm_head t0).1 (renderTerm_head t0).2)
  have hterm : parseTermF f (renderTerm t0 ++ ['}']) = some (['}'], t0) :=
    (parse_print_main (sizeT t0) t0 (le_refl _) hPT).2 f ['}'] hf
      (Or.inr (Or.inr ⟨[], rfl⟩))
  have hrear : parseRearangedTermF f (renderTerm t0 ++ ['}'])
      = some (['}'], rearangeTerm t0) := by
    unfold parseRearangedTermF
    exact pmap_comp _ _ _ _ _ hterm
  have hmsB : pms0 (['}'] : List Char) = some (['}'], ()) :=
    pms0_nodrop _ (by simp only [headSat]; decide)
  have hrb : ptag [rbrace] (['}'] : List Char) = some ([], [rbrace]) :=
    ptag1_hit rbrace []
  have hinner : pdelimited pms0 (parseRearangedTermF f) pms0 (renderTerm t0 ++ ['}'])
      = some (['}'], rearangeTerm t0) :=
    pdelimited_comp _ _ _ _ _ _ _ _ _ _ hmsA hrear hmsB
  have houter : pdelimited (ptag [lbrace])
      (pdelimited pms0 (parseRearangedTermF f) pms0) (ptag [rbrace])
      ('{' :: (renderTerm t0 ++ ['}'])) = some ([], rearangeTerm t0) :=
    pdelimited_comp _ _ _ _ _ _ _ _ _ _ hlb hinner hrb
  have hprec : ppreceded pms0 (pdelimited (ptag [lbrace])
      (pdelimited pms0 (parseRearangedTermF f) pms0) (ptag [rbrace]))
      ('{' :: (renderTerm t0 ++ ['}'])) = some ([], rearangeTerm t0) :=
    ppreceded_comp _ _ _ _ _ _ _ hms0 houter
  have hpair : ppair parseU32 (ppreceded pms0 (pdelimited (ptag [lbrace])
      (pdelimited pms0 (parseRearangedTermF f) pms0) (ptag [rbrace])))
      (natChars k ++ ('{' :: (renderTerm t0 ++ ['}'])))
      = some ([], (k, rearangeTerm t0)) :=
    ppair_comp _ _ _ _ _ _ _ hu32 hprec
  unfold parseExpressionF
  exact palt2_first _ _ _ _ (pmap_comp _ _ _ _ _ hpair)

/-- Print-parse for a bare term expression, at any sufficient fuel. -/
lemma parseExpressionF_simple_print (f : Nat) (t0 : Term) (hPT : PT t0)
    (hf : sizeT t0 < f) :
    parseExpressionF f (renderTerm t0) = some ([], .Simple (rearangeTerm t0)) := by
  have hterm0 := (parse_print_main (sizeT t0) t0 (le_refl _) hPT).2 f [] hf (Or.inl rfl)
  rw [List.append_nil] at hterm0
  have hrear : parseRearangedTermF f (renderTerm t0) = some ([], rearangeTerm t0) := by
    unfold parseRearangedTermF
    exact pmap_comp _ _ _ _ _ hterm0
  unfold parseExpressionF
  rw [palt2_second _ _ _ (parseExpressionF_list_fail f t0)]
  exact pmap_comp _ _ _ _ _ hrear

/-- C4: `parse_expression` only outputs precedence-rearranged images of
grammar-shaped terms; rendering such an output and parsing it again
reproduces it exactly (the rotation does not change the rendered text, and
the grammar re-reads its own prints). -/
theorem C4_roundtrip (s rest : List Char) (e : Expression)
    (h : parseExpression s = some (rest, e)) :
    parseExpression (renderExpression e) = some ([], e) := by
  unfold parseExpression parseExpressionF at h
  rcases palt2_inv _ _ _ _ h with h1 | ⟨_, h1⟩
  · obtain ⟨a, ha, he⟩ := pmap_inv _ _ _ _ _ h1
    obtain ⟨m, hu32, h2⟩ := ppair_inv _ _ _ _ _ ha
    obtain ⟨m2, a2, _, h3⟩ := ppreceded_inv _ _ _ _ _ h2
    obtain ⟨m3, m4, va, vc, _, hb, _⟩ := pdelimited_inv _ _ _ _ _ _ h3
    obtain ⟨m5, m6, vb2, vc2, _, hb2, _⟩ := pdelimited_inv _ _ _ _ _ _ hb
    unfold parseRearangedTermF at hb2
    obtain ⟨t0, ht0, ht0eq⟩ := pmap_inv _ _ _ _ _ hb2
    have hPT : PT t0 := parseTermF_PT _ _ _ _ ht0
    have hWFn : WFn a.1 := parseU32_inv _ _ _ hu32
    subst he
    rw [ht0eq]
    have hsh : renderExpression (Expression.List a.1 (rearangeTerm t0))
        = natChars a.1 ++ ('{' :: (renderTerm t0 ++ ['}'])) := by
      show natChars a.1 ++ '{' :: renderTerm (rearangeTerm t0) ++ ['}'] = _
      rw [render_rearange t0]
      simp [List.append_assoc]
    unfold parseExpression
    rw [hsh]
    apply parseExpressionF_list_print _ _ hWFn t0 hPT
    have hsz := sizeT_le_render t0
    simp only [List.length_append, List.length_cons]
    omega
  · obtain ⟨a, ha, he⟩ := pmap_inv _ _ _ _ _ h1
    unfold parseRearangedTermF at ha
    obtain ⟨t0, ht0, ht0eq⟩ := pmap_inv _ _ _ _ _ ha
    have hPT : PT t0 := parseTermF_PT _ _ _ _ ht0
    subst he
    rw [ht0eq]
    have hsh : renderExpression (Expression.Simple (rearangeTerm t0)) = renderTerm t0 := by
      show renderTerm (rearangeTerm t0) = renderTerm t0
      exact render_rearange t0
    unfold parseExpression
    rw [hsh]
    apply parseExpressionF_simple_print _ t0 hPT
    have hsz := sizeT_le_render t0
    omega

theorem C4_roundtrip_witness :
    parseExpression ['5'] = some ([], Expression.Simple (Term.Constant 5))
      ∧ parseExpression (renderExpression (Expression.Simple (Term.Constant 5)))
        = some ([], Expression.Simple (Term.Constant 5)) := by
  have h : parseExpression ['5'] = some ([], Expression.Simple (Term.Constant 5)) := by
    decide
  exact ⟨h, C4_roundtrip ['5'] [] _ h⟩

end RollBot
